import Mathlib

/-!
Verification of the teamspeak_bot reconciliation engine.

This file gives a shallow embedding of the algorithmic parts of the
repository and proves properties about them:

* `fetch_api_classify` — the outcome classification of `fetch_api`
  (src/ts3bot/__init__.py, lines 80-98);
* `limit_fetch_api` — the bounded retry wrapper
  (src/ts3bot/__init__.py, lines 42-51);
* `sync_groups` — the group reconciliation function
  (src/ts3bot/__init__.py, lines 259-435);
* `fix_user_guilds` — cycle phase 0
  (src/ts3bot/cycle.py, lines 53-81);
* `verify_ts3_accounts` / `verify_accounts` — cycle phases 1 and 2
  (src/ts3bot/cycle.py, lines 97-227);
* row-level models of the database operations used by the cycle and
  by `transfer_registration`.  The ORM model module itself is not part
  of the source tree, so `Account.invalidate`, `Account.update`,
  `Account.guild_group` and `Account.world_group` are modelled from the
  spec where noted.

Machine integers do not occur: all ids are small database keys and HTTP
status codes, represented as `Nat`.
-/

namespace Ts3Bot

/-! ## External account verifier: `fetch_api` classification

The GW2 API response is abstracted by its HTTP status code and whether
the body text contains an "Invalid"/"invalid" marker; `hasApiKey` is
whether an `api_key` argument was passed (truthy) to `fetch_api`.
-/

/-- The five outcomes of `fetch_api`: a parsed 200 body, or one of the
exceptions `InvalidKeyException`, `NotFoundException`,
`RateLimitException`, `requests.RequestException` (API unavailable). -/
inductive ApiOutcome where
  | success
  | invalidKey
  | notFound
  | rateLimited
  | unavailable
deriving DecidableEq, Repr

/-- An HTTP response as far as `fetch_api` inspects it: the status code
and whether `"Invalid" in response.text or "invalid" in response.text`. -/
structure HttpResponse where
  status : Nat
  bodyHasInvalid : Bool
deriving DecidableEq, Repr

/-- The outcome classification of `fetch_api`
(src/ts3bot/__init__.py lines 82-98): first the invalid-key check
(4xx, a key was supplied, and the body contains the invalid marker),
then 200 → success, 404 → not found, 429 → rate limited, and every
other status raises `requests.RequestException`. -/
def fetch_api_classify (resp : HttpResponse) (hasApiKey : Bool) : ApiOutcome :=
  if 400 ≤ resp.status ∧ resp.status < 500 ∧ hasApiKey = true ∧ resp.bodyHasInvalid = true then
    .invalidKey
  else if resp.status = 200 then .success
  else if resp.status = 404 then .notFound
  else if resp.status = 429 then .rateLimited
  else .unavailable

/-! ## `limit_fetch_api`: bounded retry on rate limits

`limit_fetch_api(endpoint, api_key, level)` raises at `level >= 3`,
otherwise performs one `fetch_api` call; only `RateLimitException` is
caught, causing a 60 second sleep and a recursive call with `level+1`.
The fetch attempts are modelled by an oracle giving the outcome of the
attempt made at each level; the result carries the total time slept. -/

/-- One run of `limit_fetch_api` starting at recursion depth `level`,
where `oracle i` is the outcome of the `fetch_api` call made at depth
`i`.  Returns the outcome propagated to the caller together with the
total number of seconds slept (`time.sleep(60)` per caught rate
limit). -/
def limit_fetch_api (oracle : Nat → ApiOutcome) : Nat → ApiOutcome × Nat
  | level =>
    if _h : 3 ≤ level then (.rateLimited, 0)
    else
      match oracle level with
      | .rateLimited =>
        let r := limit_fetch_api oracle (level + 1)
        (r.1, 60 + r.2)
      | o => (o, 0)
termination_by level => 3 - level
decreasing_by omega

/-! ## Group synchronizer: `sync_groups`

Data the function reads:
* the live membership from `servergroupsbyclientid` — a list of
  `(sgid, name)` pairs;
* the account (`models.Account`), of which only `is_valid`,
  `guild_group()` and `world_group()` are consulted.  The models module
  is not part of the source tree, so those two accessors are modelled
  from the spec as fields holding their results: the active guild link's
  chat group (id and guild name), and the `WorldGroup` row for the
  account's world;
* configuration and database tables: the known world group ids, the
  known guild group ids, the two generic group ids, the whitelisted
  group names and the additional guild group names.
-/

/-- One entry of the `servergroupsbyclientid` answer. -/
structure ServerGroup where
  sgid : Nat
  name : String
deriving DecidableEq, Repr

/-- A `models.WorldGroup` row: chat group id, the `is_linked` flag of
the world, and the world's proper name (used as group name when the
world group is added). -/
structure WorldGroupRow where
  groupId : Nat
  isLinked : Bool
  properName : String
deriving DecidableEq, Repr

/-- Modelled from the spec: the slice of `models.Account` (the models
module is absent from the source tree) that `sync_groups` reads.
`guildGroup` holds the result of `Account.guild_group()` — the chat
group id and guild name of the account's active guild link, if any —
and `worldGroup` the result of `Account.world_group(session)` — the
`WorldGroup` row mapped to the account's world, if any. -/
structure AccountView where
  isValid : Bool
  guildGroup : Option (Nat × String)
  worldGroup : Option WorldGroupRow
deriving DecidableEq, Repr

/-- Configuration and database tables read by `sync_groups`. -/
structure SyncEnv where
  worldGroupIds : List Nat
  guildGroupIds : List Nat
  genericWorldId : Nat
  genericGuildId : Nat
  whitelistGroups : List String
  additionalGuildGroups : List String
deriving Repr

/-- The mutable state of one `sync_groups` run: the user's current
groups (the source keeps the id list `server_group_ids` in sync with
the directory; we carry names along so that a later run can be fed the
resulting membership) and the accumulated `group_changes` lists. -/
structure SyncState where
  groups : List ServerGroup
  added : List String
  removed : List String
deriving DecidableEq, Repr

/-- Result of `sync_groups`: final membership, the `added`/`removed`
name lists of the returned `group_changes` dict, and whether the run
ended in the whitelist early return (which the source reports by
logging "Skipping cldbid:... due to whitelisted group"). -/
structure SyncOutcome where
  groups : List ServerGroup
  added : List String
  removed : List String
  aborted : Bool
deriving DecidableEq, Repr

/-- `sgid` projection of a membership list. -/
def sgids (gs : List ServerGroup) : List Nat := gs.map (fun g => g.sgid)

/-- Membership test on `server_group_ids` (`int(group["sgid"]) in
server_group_ids`). -/
def hasGroup (gs : List ServerGroup) (x : Nat) : Bool :=
  gs.any (fun g => g.sgid == x)

/-- The inner `_add_group`: a no-op if the id is already held,
otherwise the directory call is made, the id list is extended and the
name recorded under `added`.  The source logs and swallows a
`TS3Error` from the directory; gateway calls are modelled as
succeeding, which is the hypothesis of every claim about changes. -/
def add_group (st : SyncState) (g : ServerGroup) : SyncState :=
  if hasGroup st.groups g.sgid then st
  else { groups := st.groups ++ [g], added := st.added ++ [g.name], removed := st.removed }

/-- The inner `_remove_group`: a no-op if the id is not held, otherwise
the directory call is made, the first matching id is dropped
(`list.remove`) and the name recorded under `removed`. -/
def remove_group (st : SyncState) (g : ServerGroup) : SyncState :=
  if hasGroup st.groups g.sgid then
    { groups := st.groups.eraseP (fun x => x.sgid == g.sgid),
      added := st.added,
      removed := st.removed ++ [g.name] }
  else st

/-- `valid_guild_group` as computed at src/ts3bot/__init__.py line 327:
only a truthy, valid account with `remove_all` unset contributes. -/
def effectiveGuild (acc : Option AccountView) (removeAll : Bool) : Option (Nat × String) :=
  match acc with
  | some a => if a.isValid && !removeAll then a.guildGroup else none
  | none => none

/-- `valid_world_group`, same guard as `effectiveGuild`. -/
def effectiveWorld (acc : Option AccountView) (removeAll : Bool) : Option WorldGroupRow :=
  match acc with
  | some a => if a.isValid && !removeAll then a.worldGroup else none
  | none => none

/-- The "skip known valid groups" test of the scan loop (lines
365-372).  The source also compares `sgid` against the whole
`generic_world` and `generic_guild` dicts; an `int == dict` comparison
is always false in Python, so those two disjuncts are dropped. -/
def skipKnownValid (vg : Option (Nat × String)) (vw : Option WorldGroupRow)
    (g : ServerGroup) : Bool :=
  g.name == "Guest"
    || (match vg with | some p => g.sgid == p.1 | none => false)
    || (match vw with | some w => g.sgid == w.groupId | none => false)

/-- The "skip unknown groups" test (line 384). -/
def unknownGroup (env : SyncEnv) (g : ServerGroup) : Bool :=
  !env.guildGroupIds.contains g.sgid && !env.worldGroupIds.contains g.sgid

/-- The scan loop over `server_groups` (lines 360-387): collect the
known, non-valid groups into `invalid_groups`; encountering a
whitelisted group (when `skip_whitelisted` is set) returns early from
the whole function, modelled as `none`. -/
def collectInvalid (env : SyncEnv) (vg : Option (Nat × String)) (vw : Option WorldGroupRow)
    (skipWhitelisted : Bool) : List ServerGroup → Option (List ServerGroup)
  | [] => some []
  | g :: gs =>
    if skipKnownValid vg vw g then collectInvalid env vg vw skipWhitelisted gs
    else if skipWhitelisted && env.whitelistGroups.contains g.name then none
    else if unknownGroup env g then collectInvalid env vg vw skipWhitelisted gs
    else (collectInvalid env vg vw skipWhitelisted gs).map (g :: ·)

/-- Removal of the collected `invalid_groups` (line 389). -/
def stepInvalid (inv : List ServerGroup) (st : SyncState) : SyncState :=
  inv.foldl remove_group st

/-- One iteration of the additional-guild-group cleanup: remove the
first entry of the *original* `server_groups` answer carrying the
configured name (the inner loop at lines 395-398 `break`s after the
first match). -/
def additionalStep (membership : List ServerGroup) (s : SyncState) (n : String) : SyncState :=
  match membership.find? (fun g => g.name == n) with
  | some g => remove_group s g
  | none => s

/-- Removal of `Config.additional_guild_groups` by name when no guild
group is valid (lines 392-398). -/
def removeAdditional (env : SyncEnv) (membership : List ServerGroup) (st : SyncState) : SyncState :=
  env.additionalGuildGroups.foldl (additionalStep membership) st

/-- Line 392: the additional-guild cleanup only runs without a valid
guild group. -/
def stepAdditional (env : SyncEnv) (vg : Option (Nat × String))
    (membership : List ServerGroup) (st : SyncState) : SyncState :=
  if vg.isNone then removeAdditional env membership st else st

/-- Lines 400-402: add the generic guild group when a guild group is
valid and missing. -/
def stepGenGuildAdd (env : SyncEnv) (vg : Option (Nat × String)) (st : SyncState) : SyncState :=
  if vg.isSome && !hasGroup st.groups env.genericGuildId then
    add_group st ⟨env.genericGuildId, "Generic Guild"⟩
  else st

/-- Lines 404-406: remove the generic guild group when held without a
valid guild group. -/
def stepGenGuildRemove (env : SyncEnv) (vg : Option (Nat × String)) (st : SyncState) : SyncState :=
  if hasGroup st.groups env.genericGuildId && vg.isNone then
    remove_group st ⟨env.genericGuildId, "Generic Guild"⟩
  else st

/-- Lines 408-412: add the valid guild's own group when missing. -/
def stepGuildAdd (vg : Option (Nat × String)) (st : SyncState) : SyncState :=
  match vg with
  | some p => if !hasGroup st.groups p.1 then add_group st ⟨p.1, p.2⟩ else st
  | none => st

/-- Lines 414-421: add the generic world group when the valid world is
linked, the group is missing, and no guild group is valid. -/
def stepGenWorldAdd (env : SyncEnv) (vg : Option (Nat × String)) (vw : Option WorldGroupRow)
    (st : SyncState) : SyncState :=
  match vw with
  | some w =>
    if w.isLinked && !hasGroup st.groups env.genericWorldId && vg.isNone then
      add_group st ⟨env.genericWorldId, "Generic World"⟩
    else st
  | none => st

/-- Lines 423-427: remove the generic world group when held and there
is no valid world group, or the world is not linked, or a guild group
is valid. -/
def stepGenWorldRemove (env : SyncEnv) (vg : Option (Nat × String)) (vw : Option WorldGroupRow)
    (st : SyncState) : SyncState :=
  if hasGroup st.groups env.genericWorldId
      && ((match vw with | some w => !w.isLinked | none => true) || vg.isSome) then
    remove_group st ⟨env.genericWorldId, "Generic World"⟩
  else st

/-- Lines 429-433: add the valid world's own group when missing.  Note
that unlike the generic world group this is *not* conditioned on the
absence of a valid guild group nor on `is_linked`. -/
def stepWorldAdd (vw : Option WorldGroupRow) (st : SyncState) : SyncState :=
  match vw with
  | some w =>
    if !hasGroup st.groups w.groupId then add_group st ⟨w.groupId, w.properName⟩ else st
  | none => st

/-- The six add/remove rules of lines 400-435, in source order. -/
def lateSteps (env : SyncEnv) (vg : Option (Nat × String)) (vw : Option WorldGroupRow)
    (st : SyncState) : SyncState :=
  stepWorldAdd vw
    (stepGenWorldRemove env vg vw
      (stepGenWorldAdd env vg vw
        (stepGuildAdd vg
          (stepGenGuildRemove env vg
            (stepGenGuildAdd env vg st)))))

/-- Everything `sync_groups` does after the scan loop, in source
order. -/
def applyRules (env : SyncEnv) (vg : Option (Nat × String)) (vw : Option WorldGroupRow)
    (membership : List ServerGroup) (inv : List ServerGroup) : SyncState :=
  lateSteps env vg vw
    (stepAdditional env vg membership
      (stepInvalid inv ⟨membership, [], []⟩))

/-- The whole of `sync_groups` (src/ts3bot/__init__.py lines 259-435)
over a live membership list, with every directory call succeeding. -/
def sync_groups (env : SyncEnv) (acc : Option AccountView) (removeAll skipWhitelisted : Bool)
    (membership : List ServerGroup) : SyncOutcome :=
  let vg := effectiveGuild acc removeAll
  let vw := effectiveWorld acc removeAll
  match collectInvalid env vg vw skipWhitelisted membership with
  | none => ⟨membership, [], [], true⟩
  | some inv =>
    let st := applyRules env vg vw membership inv
    ⟨st.groups, st.added, st.removed, false⟩

/-! ## Cycle phase 0: `Cycle.fix_user_guilds`

(src/ts3bot/cycle.py lines 53-81.)  The table of
`models.LinkAccountGuild` rows is modelled as a list; SQL evaluation
order is mirrored: the duplicate query is evaluated once up front, and
each loop iteration runs one `DELETE` against the current table.  The
kept-link subquery (`order_by id desc limit 1`) is the maximal id of
the account's active links; when it yields no row the SQL comparison
`id != NULL` is unknown, so the `DELETE` matches nothing. -/

/-- A `models.LinkAccountGuild` row. -/
structure LinkAccountGuild where
  id : Nat
  accountId : Nat
  guildId : Nat
  isActive : Bool
deriving DecidableEq, Repr

/-- The `duplicate_guilds` query (lines 60-65): account ids with more
than one active guild link, one representative per account in first
occurrence order. -/
def duplicateAccounts (table : List LinkAccountGuild) : List Nat :=
  (((table.filter (fun r => r.isActive)).map (fun r => r.accountId)).dedup).filter
    (fun a => 1 < ((table.filter (fun r => r.isActive && r.accountId == a)).length))

/-- The kept-link subquery (lines 73-79): largest id among the
account's currently active links. -/
def keeperId (table : List LinkAccountGuild) (a : Nat) : Option Nat :=
  ((table.filter (fun r => r.accountId == a && r.isActive)).map (fun r => r.id)).max?

/-- One loop iteration (lines 70-81): delete every row of the whole
table whose id differs from the kept id — the outer `DELETE` carries no
`account_id` filter. -/
def fixStep (table : List LinkAccountGuild) (a : Nat) : List LinkAccountGuild :=
  match keeperId table a with
  | none => table
  | some k => table.filter (fun r => r.id == k)

/-- `Cycle.fix_user_guilds`. -/
def fix_user_guilds (table : List LinkAccountGuild) : List LinkAccountGuild :=
  (duplicateAccounts table).foldl fixStep table

/-! ## Account rows, `Account.update`, and the cycle phases 1 and 2 -/

/-- A `models.Account` row (the fields the cycle reads/writes). -/
structure AccountRow where
  id : Nat
  world : Nat
  name : String
  isValid : Bool
  lastCheck : Nat
deriving DecidableEq, Repr

/-- The outcome of the API fetch performed by `Account.update` for one
account. -/
inductive UpdateOutcome where
  | ok (world : Nat) (name : String)
  | invalidKey
  | unavailable
deriving DecidableEq, Repr

/-- The exception (if any) that `Account.update` lets escape. -/
inductive UpdateSignal where
  | ok
  | invalidKey
  | unavailable
deriving DecidableEq, Repr

/-- Modelled from the spec: `Account.update` (the models module is
absent from the source tree).  On a successful fetch the account's
world, name, validity and last-check timestamp are updated; on
`InvalidKeyException` the account is marked invalid and the exception
is re-raised; on a transport failure (`requests.RequestException`) the
exception propagates before any mutation. -/
def accountUpdate (a : AccountRow) (now : Nat) : UpdateOutcome → AccountRow × UpdateSignal
  | .ok w n => ({ a with world := w, name := n, isValid := true, lastCheck := now }, .ok)
  | .invalidKey => ({ a with isValid := false, lastCheck := now }, .invalidKey)
  | .unavailable => (a, .unavailable)

/-- One user of the phase-1 sweep: the account resolved from the
user's identity (if any) and whether the account was checked within
the freshness window. -/
structure Ts3User where
  account : Option AccountRow
  fresh : Bool
deriving Repr

/-- `Cycle.revoke` as far as account state is concerned: the account
(if any) is invalidated; group removal happens on the directory. -/
def revokeAccount : Option AccountRow → Option AccountRow
  | some a => some { a with isValid := false }
  | none => none

/-- Phase 1, `Cycle.verify_ts3_accounts` (src/ts3bot/cycle.py lines
97-148), modelled over the user list with `outs i` the fetch outcome
for the user at position `i`.  Returns the per-user account states and
whether the sweep was aborted by a re-raised `RequestException`; on
abort the current and all following accounts are left untouched. -/
def verifyTs3Aux (outs : Nat → UpdateOutcome) (verifyAll : Bool) (now : Nat) :
    Nat → List Ts3User → List (Option AccountRow) × Bool
  | _, [] => ([], false)
  | i, u :: rest =>
    match u.account with
    | none =>
      -- no account: revoke(None, cldbid) touches no account row
      let t := verifyTs3Aux outs verifyAll now (i + 1) rest
      (none :: t.1, t.2)
    | some a =>
      if u.fresh && !verifyAll then
        let t := verifyTs3Aux outs verifyAll now (i + 1) rest
        (some a :: t.1, t.2)
      else
        match accountUpdate a now (outs i) with
        | (a', .unavailable) => (some a' :: rest.map (fun v => v.account), true)
        | (a', .invalidKey) =>
          let t := verifyTs3Aux outs verifyAll now (i + 1) rest
          (revokeAccount (some a') :: t.1, t.2)
        | (a', .ok) =>
          let t := verifyTs3Aux outs verifyAll now (i + 1) rest
          (some a' :: t.1, t.2)

/-- Phase 2, the per-account loop of `Cycle.verify_accounts`
(src/ts3bot/cycle.py lines 217-227): `InvalidKeyException` is swallowed
(`pass`, the account was already marked invalid inside
`Account.update`), `requests.RequestException` is re-raised, aborting
the sweep with the current and all following accounts untouched. -/
def verifyAccountsAux (outs : Nat → UpdateOutcome) (now : Nat) :
    Nat → List AccountRow → List AccountRow × Bool
  | _, [] => ([], false)
  | i, a :: rest =>
    match accountUpdate a now (outs i) with
    | (a', .unavailable) => (a' :: rest, true)
    | (a', _) =>
      let t := verifyAccountsAux outs now (i + 1) rest
      (a' :: t.1, t.2)

/-! ## Row-level store model for the append-only claims -/

/-- A `models.LinkAccountIdentity` row. -/
structure LinkAIRow where
  id : Nat
  accountId : Nat
  identityId : Nat
  isActive : Bool
deriving DecidableEq, Repr

/-- The entitlement store: the four entity tables the claims range
over. -/
structure Db where
  accounts : List AccountRow
  identities : List Nat
  linkAI : List LinkAIRow
  linkAG : List LinkAccountGuild
deriving Repr

/-- Modelled from the spec: `Account.invalidate` (the models module is
absent from the source tree) marks the account invalid and deactivates
its identity and guild links; rows are only flag-toggled, never
removed. -/
def dbInvalidate (db : Db) (accId : Nat) : Db :=
  { db with
    accounts := db.accounts.map (fun a => if a.id = accId then { a with isValid := false } else a),
    linkAI := db.linkAI.map (fun l => if l.accountId = accId then { l with isActive := false } else l),
    linkAG := db.linkAG.map (fun l => if l.accountId = accId then { l with isActive := false } else l) }

/-- `Account.update` lifted to the store: the account row is replaced
by its updated version (a transport failure mutates nothing). -/
def dbUpdate (db : Db) (accId : Nat) (now : Nat) (o : UpdateOutcome) : Db :=
  match o with
  | .unavailable => db
  | o =>
    { db with
      accounts := db.accounts.map
        (fun a => if a.id = accId then (accountUpdate a now o).1 else a) }

/-- `transfer_registration` (src/ts3bot/__init__.py lines 161-256) at
the row level: get-or-create the target identity, snapshot the
account's active guild link, invalidate the account (and the target
identity's current account, if any), append a fresh active
account-identity link, and reactivate the snapshotted guild link. -/
def transfer_registration (db : Db) (accId : Nat) (targetIdentity : Nat)
    (otherAccId : Option Nat) (newLinkId : Nat) : Db :=
  let db1 := { db with
    identities :=
      if db.identities.contains targetIdentity then db.identities
      else db.identities ++ [targetIdentity] }
  let guildKeep := (db1.linkAG.find? (fun l => l.accountId == accId && l.isActive)).map
    (fun l => l.id)
  let db2 := dbInvalidate db1 accId
  let db3 := match otherAccId with
    | some o => dbInvalidate db2 o
    | none => db2
  let db4 := { db3 with
    linkAI := db3.linkAI ++ [⟨newLinkId, accId, targetIdentity, true⟩] }
  match guildKeep with
  | some gid =>
    { db4 with
      linkAG := db4.linkAG.map (fun l => if l.id = gid then { l with isActive := true } else l) }
  | none => db4

/-- The row identities of a store state, one list per table. -/
def dbRowIds (db : Db) : List Nat × List Nat × List Nat × List Nat :=
  (db.accounts.map (fun a => a.id), db.identities,
   db.linkAI.map (fun l => l.id), db.linkAG.map (fun l => l.id))

/-! ## Well-formedness predicates used by the `sync_groups` theorems -/

/-- A live membership answer has pairwise distinct group ids (a chat
server never reports the same group twice for one client). -/
def GroupsOK (gs : List ServerGroup) : Prop := (sgids gs).Nodup

/-- Sanity of the deployment's group-id configuration relative to the
effective guild/world entitlement: the two generic group ids are not
also registered as some world's or guild's own group id, they differ
from each other, and the entitled guild/world group ids do not collide
with the generic ids. -/
def EnvOK (env : SyncEnv) (vg : Option (Nat × String)) (vw : Option WorldGroupRow) : Prop :=
  env.genericWorldId ∉ env.worldGroupIds ∧
  env.genericWorldId ∉ env.guildGroupIds ∧
  env.genericGuildId ∉ env.worldGroupIds ∧
  env.genericGuildId ∉ env.guildGroupIds ∧
  env.genericWorldId ≠ env.genericGuildId ∧
  (match vg with | some p => p.1 ≠ env.genericWorldId | none => True) ∧
  (match vw with
   | some w => w.groupId ≠ env.genericWorldId ∧ w.groupId ≠ env.genericGuildId
   | none => True)

/-- Sanity of the `additional_guild_groups` name configuration: the
names `sync_groups` itself may (re-)grant are not listed for removal,
and no listed name is held twice in the current membership (the source
removes only the first match per name). -/
def NamesOK (env : SyncEnv) (vg : Option (Nat × String)) (vw : Option WorldGroupRow)
    (membership : List ServerGroup) : Prop :=
  (vg = none →
    "Generic World" ∉ env.additionalGuildGroups ∧
    (match vw with
     | some w => w.properName ∉ env.additionalGuildGroups
     | none => True)) ∧
  ∀ n ∈ env.additionalGuildGroups, ((membership.filter (fun g => g.name == n)).length ≤ 1)

/-! ## Theorems -/

/-- Unfolding equation for `limit_fetch_api`. -/
theorem limit_fetch_api_eq (oracle : Nat → ApiOutcome) (level : Nat) :
    limit_fetch_api oracle level =
      if 3 ≤ level then (.rateLimited, 0)
      else
        match oracle level with
        | .rateLimited =>
          let r := limit_fetch_api oracle (level + 1)
          (r.1, 60 + r.2)
        | o => (o, 0) := by
  rw [limit_fetch_api]
  by_cases h : 3 ≤ level <;> simp [h]

/-- C8: for every response observed with a credential supplied,
`fetch_api` classifies it as exactly one of success (200),
InvalidCredential (4xx with the invalid marker), NotFound (404),
RateLimited (429) or Unavailable (everything else); the outcomes are
mutually exclusive (the classifier is a function into an enumeration)
and the invalid-marker check takes precedence over the 404/429
branches. -/
theorem fetch_api_classification (s : Nat) (m : Bool) :
    (fetch_api_classify ⟨s, m⟩ true = .invalidKey ↔ 400 ≤ s ∧ s < 500 ∧ m = true) ∧
    (fetch_api_classify ⟨s, m⟩ true = .success ↔ s = 200) ∧
    (fetch_api_classify ⟨s, m⟩ true = .notFound ↔ s = 404 ∧ m = false) ∧
    (fetch_api_classify ⟨s, m⟩ true = .rateLimited ↔ s = 429 ∧ m = false) ∧
    (fetch_api_classify ⟨s, m⟩ true = .unavailable ↔
      ¬(400 ≤ s ∧ s < 500 ∧ m = true) ∧ s ≠ 200 ∧ s ≠ 404 ∧ s ≠ 429) := by
  simp only [fetch_api_classify]
  split_ifs <;> cases m <;> simp_all <;> omega

/-- Witness for C8: a 404 without the invalid marker is classified
NotFound. -/
theorem fetch_api_classification_witness :
    fetch_api_classify ⟨404, false⟩ true = .notFound :=
  (fetch_api_classification 404 false).2.2.1.mpr ⟨rfl, rfl⟩

/-- C10: without a credential the InvalidCredential outcome of
`fetch_api` is unreachable — the invalid-key branch also requires
`api_key` to be truthy — and a 4xx response containing the invalid
marker falls through to NotFound (404), RateLimited (429) or
Unavailable instead. -/
theorem fetch_api_no_key_no_invalid (s : Nat) (m : Bool) :
    fetch_api_classify ⟨s, m⟩ false ≠ .invalidKey ∧
    (400 ≤ s → s < 500 → m = true →
      fetch_api_classify ⟨s, m⟩ false =
        if s = 404 then .notFound else if s = 429 then .rateLimited else .unavailable) := by
  simp only [fetch_api_classify]
  split_ifs <;> simp_all

/-- Witness for C10: a 404 whose body contains the invalid marker,
fetched without a credential, is classified NotFound. -/
theorem fetch_api_no_key_no_invalid_witness :
    fetch_api_classify ⟨404, true⟩ false = .notFound := by
  have h := (fetch_api_no_key_no_invalid 404 true).2 (by norm_num) (by norm_num) rfl
  simpa using h

/-- C4: `limit_fetch_api` fails with the rate-limit error after three
consecutive rate-limited attempts (sleeping 60 units after each, so
consecutive attempts are 60 units apart, 180 in total), and otherwise
returns the first non-rate-limited attempt's outcome verbatim — so a
rate-limited attempt followed by a success within the bound returns the
success, and InvalidCredential/NotFound are never retried: they
propagate from the attempt that produced them with no further sleep. -/
theorem limit_fetch_api_spec :
    (∀ oracle : Nat → ApiOutcome,
      oracle 0 = .rateLimited → oracle 1 = .rateLimited → oracle 2 = .rateLimited →
      limit_fetch_api oracle 0 = (.rateLimited, 180)) ∧
    (∀ (oracle : Nat → ApiOutcome) (k : Nat), k < 3 →
      (∀ j, j < k → oracle j = .rateLimited) → oracle k ≠ .rateLimited →
      limit_fetch_api oracle 0 = (oracle k, 60 * k)) := by
  constructor
  · intro oracle h0 h1 h2
    rw [limit_fetch_api_eq, h0]
    rw [limit_fetch_api_eq, h1]
    rw [limit_fetch_api_eq, h2]
    rw [limit_fetch_api_eq]
    norm_num
  · intro oracle k hk hprev hlast
    interval_cases k
    · rw [limit_fetch_api_eq]
      cases h : oracle 0 <;> simp_all
    · rw [limit_fetch_api_eq, hprev 0 (by omega)]
      rw [limit_fetch_api_eq]
      cases h : oracle 1 <;> simp_all
    · rw [limit_fetch_api_eq, hprev 0 (by omega)]
      rw [limit_fetch_api_eq, hprev 1 (by omega)]
      rw [limit_fetch_api_eq]
      cases h : oracle 2 <;> simp_all


/-- C2 (failing input): `fix_user_guilds` on a table where account 1
has two active guild links (ids 1, 2) and account 2 has a single
active link (id 3).  The code *deletes* rows 1 and 3 — the loop's
`DELETE` lacks an `account_id` filter, so account 2's sole link is
destroyed along with account 1's older duplicate, and nothing is
merely deactivated.  The claim (deactivate account 1's older link,
leave account 2 untouched) is what the function's own docstring
("Removes duplicate selected guilds from users") intends. -/
theorem fix_user_guilds_failing_input :
    fix_user_guilds [⟨1, 1, 10, true⟩, ⟨2, 1, 11, true⟩, ⟨3, 2, 12, true⟩] =
      [⟨2, 1, 11, true⟩] := by
  decide

/-- C3 (counterexample): a cycle phase-0 step deletes a
`LinkAccountGuild` row outright — the store after the step is not a
superset of the store before it. -/
theorem fix_user_guilds_not_append_only :
    (⟨1, 1, 10, true⟩ : LinkAccountGuild) ∈
        ([⟨1, 1, 10, true⟩, ⟨2, 1, 11, true⟩] : List LinkAccountGuild) ∧
    (⟨1, 1, 10, true⟩ : LinkAccountGuild) ∉
        fix_user_guilds [⟨1, 1, 10, true⟩, ⟨2, 1, 11, true⟩] := by
  decide

/-- C9: the spec's worked example.  A valid account on linked world 5
(group id 50, proper name "World 5"), no active guild link, current
membership consisting of the generic-guild group (id 91) and the guest
group: `sync_groups` removes the generic-guild group and adds the
generic-world group and the world-5 group (the spec states the added
list as a set; the code emits the generic world first). -/
theorem sync_groups_example :
    let env : SyncEnv := ⟨[50], [30], 90, 91, [], []⟩
    let acc : AccountView := ⟨true, none, some ⟨50, true, "World 5"⟩⟩
    let out := sync_groups env (some acc) false false [⟨91, "Generic Guild"⟩, ⟨5, "Guest"⟩]
    out.removed = ["Generic Guild"] ∧ out.added = ["Generic World", "World 5"] ∧
      out.aborted = false := by
  decide

/-- C1 (counterexample): a valid account with an active guild link
(guild group 30) on world 5 (group id 50, linked).  After
`sync_groups` completes, the membership *does* contain the world
group 50 — the home-world add at src/ts3bot/__init__.py line 430 is
not conditioned on the absence of a guild link — while the
generic-world group 90 is indeed absent. -/
theorem sync_groups_world_group_kept :
    let env : SyncEnv := ⟨[50], [30], 90, 91, [], []⟩
    let acc : AccountView := ⟨true, some (30, "MyGuild"), some ⟨50, true, "World 5"⟩⟩
    let out := sync_groups env (some acc) false false [⟨5, "Guest"⟩]
    hasGroup out.groups 50 = true ∧ hasGroup out.groups 90 = false := by
  decide

/-- C5 (counterexample): `skip_whitelisted=true`, the user's
membership contains the whitelisted group "World 5" — but that group
is also the account's valid world group, so the scan loop skips it
*before* the whitelist check is reached and the run proceeds to
remove the stale world group 70 and add the generic world group
instead of aborting with no changes. -/
theorem sync_groups_whitelisted_but_changed :
    let env : SyncEnv := ⟨[50, 70], [], 90, 91, ["World 5"], []⟩
    let acc : AccountView := ⟨true, none, some ⟨50, true, "World 5"⟩⟩
    let m : List ServerGroup := [⟨50, "World 5"⟩, ⟨70, "Old World"⟩]
    let out := sync_groups env (some acc) false true m
    m.any (fun g => env.whitelistGroups.contains g.name) = true ∧
      out.removed = ["Old World"] ∧ out.added = ["Generic World"] ∧ out.aborted = false := by
  decide

/-! ### Basic membership lemmas for the synchronizer state -/

theorem hasGroup_iff {gs : List ServerGroup} {x : Nat} :
    hasGroup gs x = true ↔ ∃ g ∈ gs, g.sgid = x := by
  simp [hasGroup, List.any_eq_true]

theorem hasGroup_cons {g : ServerGroup} {gs : List ServerGroup} {x : Nat} :
    hasGroup (g :: gs) x = ((g.sgid == x) || hasGroup gs x) := by
  simp [hasGroup]

theorem hasGroup_of_mem {gs : List ServerGroup} {g : ServerGroup} (h : g ∈ gs) :
    hasGroup gs g.sgid = true :=
  hasGroup_iff.mpr ⟨g, h, rfl⟩

theorem GroupsOK_cons {g : ServerGroup} {gs : List ServerGroup} :
    GroupsOK (g :: gs) ↔ g.sgid ∉ sgids gs ∧ GroupsOK gs := by
  simp [GroupsOK, sgids, List.nodup_cons]

theorem hasGroup_eq_false_of_not_mem_sgids {gs : List ServerGroup} {x : Nat}
    (h : x ∉ sgids gs) : hasGroup gs x = false := by
  rw [Bool.eq_false_iff]
  intro hx
  rcases hasGroup_iff.mp hx with ⟨g, hg, rfl⟩
  exact h (List.mem_map.mpr ⟨g, hg, rfl⟩)

theorem hasGroup_eraseP {gs : List ServerGroup} (s : Nat) (x : Nat) (hnd : GroupsOK gs) :
    hasGroup (gs.eraseP (fun y => y.sgid == s)) x = (hasGroup gs x && !(s == x)) := by
  induction gs with
  | nil => simp [hasGroup]
  | cons g gs ih =>
    rcases GroupsOK_cons.mp hnd with ⟨hni, hnd'⟩
    by_cases hg : g.sgid = s
    · rw [List.eraseP_cons_of_pos (by simp [hg])]
      by_cases hx : x = s
      · subst hx
        have hfalse : hasGroup gs x = false :=
          hasGroup_eq_false_of_not_mem_sgids (hg ▸ hni)
        simp [hfalse, hasGroup_cons]
      · have hsx : (s == x) = false := beq_eq_false_iff_ne.mpr (fun h => hx h.symm)
        simp [hasGroup_cons, hg, hsx]
    · rw [List.eraseP_cons_of_neg (by simp [hg])]
      rw [hasGroup_cons, hasGroup_cons, ih hnd']
      by_cases hx : x = s
      · subst hx; simp [hg]
      · have hsx : (s == x) = false := beq_eq_false_iff_ne.mpr (fun h => hx h.symm)
        simp [hsx, Bool.or_and_distrib_right]

theorem GroupsOK_eraseP {gs : List ServerGroup} (p : ServerGroup → Bool) (hnd : GroupsOK gs) :
    GroupsOK (gs.eraseP p) := by
  simp only [GroupsOK, sgids] at hnd ⊢
  exact hnd.sublist ((List.eraseP_sublist gs).map (fun g => g.sgid))

theorem mem_of_mem_eraseP {gs : List ServerGroup} {p : ServerGroup → Bool} {a : ServerGroup}
    (h : a ∈ gs.eraseP p) : a ∈ gs :=
  (List.eraseP_sublist gs).subset h

/-! ### `add_group` / `remove_group` lemmas -/

theorem remove_group_hasGroup (st : SyncState) (g : ServerGroup) (x : Nat)
    (hnd : GroupsOK st.groups) :
    hasGroup (remove_group st g).groups x = (hasGroup st.groups x && !(g.sgid == x)) := by
  rw [remove_group]
  split_ifs with h
  · exact hasGroup_eraseP g.sgid x hnd
  · rw [Bool.not_eq_true] at h
    by_cases hx : x = g.sgid
    · subst hx; simp [h]
    · have hgx : (g.sgid == x) = false := beq_eq_false_iff_ne.mpr (fun hc => hx hc.symm)
      simp [hgx]

theorem remove_group_subset {st : SyncState} {g : ServerGroup} {a : ServerGroup}
    (h : a ∈ (remove_group st g).groups) : a ∈ st.groups := by
  rw [remove_group] at h
  split_ifs at h
  · exact mem_of_mem_eraseP h
  · exact h

theorem remove_group_GroupsOK (st : SyncState) (g : ServerGroup) (hnd : GroupsOK st.groups) :
    GroupsOK (remove_group st g).groups := by
  rw [remove_group]
  split_ifs
  · exact GroupsOK_eraseP _ hnd
  · exact hnd

theorem remove_group_added (st : SyncState) (g : ServerGroup) :
    (remove_group st g).added = st.added := by
  rw [remove_group]; split_ifs <;> rfl

theorem add_group_hasGroup (st : SyncState) (g : ServerGroup) (x : Nat) :
    hasGroup (add_group st g).groups x = (hasGroup st.groups x || g.sgid == x) := by
  rw [add_group]
  split_ifs with h
  · by_cases hx : g.sgid = x
    · subst hx; simp [h]
    · simp [hx]
  · simp [hasGroup, List.any_append]

theorem add_group_subset {st : SyncState} {g : ServerGroup} {a : ServerGroup}
    (h : a ∈ (add_group st g).groups) : a ∈ st.groups ∨ a = g := by
  rw [add_group] at h
  split_ifs at h
  · exact Or.inl h
  · rcases List.mem_append.mp h with h' | h'
    · exact Or.inl h'
    · exact Or.inr (List.mem_singleton.mp h')

theorem add_group_GroupsOK (st : SyncState) (g : ServerGroup) (hnd : GroupsOK st.groups) :
    GroupsOK (add_group st g).groups := by
  rw [add_group]
  split_ifs with h
  · exact hnd
  · rw [Bool.not_eq_true] at h
    have hno : g.sgid ∉ sgids st.groups := by
      intro hc
      rcases List.mem_map.mp hc with ⟨a, ha, haeq⟩
      have := hasGroup_of_mem ha
      rw [haeq, h] at this
      exact absurd this (by simp)
    simp only [GroupsOK, sgids, List.map_append, List.map_cons, List.map_nil]
    rw [List.nodup_append]
    exact ⟨hnd, List.nodup_singleton _, by simpa [sgids, List.disjoint_singleton] using hno⟩

theorem add_group_removed (st : SyncState) (g : ServerGroup) :
    (add_group st g).removed = st.removed := by
  rw [add_group]; split_ifs <;> rfl

/-! ### `stepInvalid` lemmas -/

theorem stepInvalid_hasGroup (inv : List ServerGroup) (st : SyncState) (x : Nat)
    (hnd : GroupsOK st.groups) :
    hasGroup (stepInvalid inv st).groups x =
      (hasGroup st.groups x && !(inv.any (fun g => g.sgid == x))) := by
  induction inv generalizing st with
  | nil => simp [stepInvalid]
  | cons g inv ih =>
    have h1 : stepInvalid (g :: inv) st = stepInvalid inv (remove_group st g) := rfl
    rw [h1, ih _ (remove_group_GroupsOK st g hnd), remove_group_hasGroup st g x hnd]
    by_cases hgx : g.sgid = x
    · simp [hgx]
    · have : (g.sgid == x) = false := beq_eq_false_iff_ne.mpr hgx
      simp [this]

theorem stepInvalid_GroupsOK (inv : List ServerGroup) (st : SyncState)
    (hnd : GroupsOK st.groups) : GroupsOK (stepInvalid inv st).groups := by
  induction inv generalizing st with
  | nil => exact hnd
  | cons g inv ih => exact ih _ (remove_group_GroupsOK st g hnd)

theorem stepInvalid_subset {inv : List ServerGroup} {st : SyncState} {a : ServerGroup}
    (h : a ∈ (stepInvalid inv st).groups) : a ∈ st.groups := by
  induction inv generalizing st with
  | nil => exact h
  | cons g inv ih => exact remove_group_subset (ih h)

theorem stepInvalid_not_mem {inv : List ServerGroup} {st : SyncState} {a : ServerGroup}
    (hnd : GroupsOK st.groups) (h : a ∈ (stepInvalid inv st).groups) : a ∉ inv := by
  intro hmem
  have h1 := hasGroup_of_mem h
  rw [stepInvalid_hasGroup inv st a.sgid hnd] at h1
  have h2 : inv.any (fun g => g.sgid == a.sgid) = true :=
    List.any_eq_true.mpr ⟨a, hmem, by simp⟩
  rw [h2] at h1
  simp at h1

theorem stepInvalid_added (inv : List ServerGroup) (st : SyncState) :
    (stepInvalid inv st).added = st.added := by
  induction inv generalizing st with
  | nil => rfl
  | cons g inv ih =>
    have h1 : stepInvalid (g :: inv) st = stepInvalid inv (remove_group st g) := rfl
    rw [h1, ih, remove_group_added]

/-! ### `removeAdditional` lemmas -/

theorem foldl_additionalStep_subset {names : List String} {m : List ServerGroup}
    {st : SyncState} {a : ServerGroup}
    (h : a ∈ (names.foldl (additionalStep m) st).groups) : a ∈ st.groups := by
  induction names generalizing st with
  | nil => exact h
  | cons n names ih =>
    have h1 := ih h
    rw [additionalStep] at h1
    rcases hf : m.find? (fun g => g.name == n) with _ | g <;> rw [hf] at h1
    · exact h1
    · exact remove_group_subset h1

theorem foldl_additionalStep_GroupsOK {names : List String} {m : List ServerGroup}
    {st : SyncState} (hnd : GroupsOK st.groups) :
    GroupsOK (names.foldl (additionalStep m) st).groups := by
  induction names generalizing st with
  | nil => exact hnd
  | cons n names ih =>
    refine ih ?_
    rw [additionalStep]
    rcases hf : m.find? (fun g => g.name == n) with _ | g <;> rw [hf]
    · exact hnd
    · exact remove_group_GroupsOK st g hnd

theorem foldl_additionalStep_hasGroup_mono {names : List String} {m : List ServerGroup}
    {st : SyncState} {x : Nat}
    (h : hasGroup (names.foldl (additionalStep m) st).groups x = true) :
    hasGroup st.groups x = true := by
  induction names generalizing st with
  | nil => exact h
  | cons n names ih =>
    have h1 := ih h
    rw [additionalStep] at h1
    rcases hf : m.find? (fun g => g.name == n) with _ | g <;> rw [hf] at h1
    · exact h1
    · rcases hasGroup_iff.mp h1 with ⟨a, ha, rfl⟩
      exact hasGroup_of_mem (remove_group_subset ha)

theorem remove_group_hasGroup_self (st : SyncState) (g : ServerGroup)
    (hnd : GroupsOK st.groups) :
    hasGroup (remove_group st g).groups g.sgid = false := by
  rw [remove_group_hasGroup st g g.sgid hnd]
  simp

theorem foldl_additionalStep_kill {names : List String} {m : List ServerGroup}
    {st : SyncState} {n : String} {g : ServerGroup}
    (hnd : GroupsOK st.groups) (hn : n ∈ names)
    (hf : m.find? (fun g => g.name == n) = some g) :
    hasGroup (names.foldl (additionalStep m) st).groups g.sgid = false := by
  induction names generalizing st with
  | nil => cases hn
  | cons n' names ih =>
    rcases List.mem_cons.mp hn with rfl | hn'
    · -- the head iteration removes g; later iterations never add
      have h1 : additionalStep m st n = remove_group st g := by
        rw [additionalStep, hf]
      rw [List.foldl_cons, h1]
      rw [Bool.eq_false_iff]
      intro hc
      have h2 := foldl_additionalStep_hasGroup_mono hc
      rw [remove_group_hasGroup_self st g hnd] at h2
      exact absurd h2 (by simp)
    · refine ih ?_ hn'
      rw [additionalStep]
      rcases hf' : m.find? (fun x => x.name == n') with _ | g' <;> rw [hf']
      · exact hnd
      · exact remove_group_GroupsOK st g' hnd

theorem foldl_additionalStep_added {names : List String} {m : List ServerGroup}
    {st : SyncState} : (names.foldl (additionalStep m) st).added = st.added := by
  induction names generalizing st with
  | nil => rfl
  | cons n names ih =>
    rw [List.foldl_cons, ih, additionalStep]
    rcases hf : m.find? (fun g => g.name == n) with _ | g <;> simp only [hf]
    · exact remove_group_added _ _

theorem foldl_additionalStep_id {names : List String} {m : List ServerGroup} {st : SyncState}
    (h : ∀ n ∈ names, m.find? (fun g => g.name == n) = none) :
    names.foldl (additionalStep m) st = st := by
  induction names generalizing st with
  | nil => rfl
  | cons n names ih =>
    rw [List.foldl_cons, additionalStep, h n (by simp)]
    exact ih (fun n' hn' => h n' (List.mem_cons_of_mem _ hn'))

/-! ### Per-step lemmas for the six late rules -/

theorem stepGenGuildAdd_GroupsOK (env : SyncEnv) (vg : Option (Nat × String)) (st : SyncState)
    (hnd : GroupsOK st.groups) : GroupsOK (stepGenGuildAdd env vg st).groups := by
  rw [stepGenGuildAdd]
  split_ifs
  · exact add_group_GroupsOK st _ hnd
  · exact hnd

theorem stepGenGuildRemove_GroupsOK (env : SyncEnv) (vg : Option (Nat × String)) (st : SyncState)
    (hnd : GroupsOK st.groups) : GroupsOK (stepGenGuildRemove env vg st).groups := by
  rw [stepGenGuildRemove]
  split_ifs
  · exact remove_group_GroupsOK st _ hnd
  · exact hnd

theorem stepGuildAdd_GroupsOK (vg : Option (Nat × String)) (st : SyncState)
    (hnd : GroupsOK st.groups) : GroupsOK (stepGuildAdd vg st).groups := by
  rcases vg with _ | p
  · exact hnd
  · rw [stepGuildAdd]
    split_ifs
    · exact add_group_GroupsOK st _ hnd
    · exact hnd

theorem stepGenWorldAdd_GroupsOK (env : SyncEnv) (vg : Option (Nat × String))
    (vw : Option WorldGroupRow) (st : SyncState)
    (hnd : GroupsOK st.groups) : GroupsOK (stepGenWorldAdd env vg vw st).groups := by
  rcases vw with _ | w
  · exact hnd
  · rw [stepGenWorldAdd]
    split_ifs
    · exact add_group_GroupsOK st _ hnd
    · exact hnd

theorem stepGenWorldRemove_GroupsOK (env : SyncEnv) (vg : Option (Nat × String))
    (vw : Option WorldGroupRow) (st : SyncState)
    (hnd : GroupsOK st.groups) : GroupsOK (stepGenWorldRemove env vg vw st).groups := by
  rw [stepGenWorldRemove.eq_def]
  split_ifs
  · exact remove_group_GroupsOK st _ hnd
  · exact hnd

theorem stepWorldAdd_GroupsOK (vw : Option WorldGroupRow) (st : SyncState)
    (hnd : GroupsOK st.groups) : GroupsOK (stepWorldAdd vw st).groups := by
  rcases vw with _ | w
  · exact hnd
  · rw [stepWorldAdd]
    split_ifs
    · exact add_group_GroupsOK st _ hnd
    · exact hnd

theorem stepGenGuildAdd_mem {env : SyncEnv} {vg : Option (Nat × String)} {st : SyncState}
    {a : ServerGroup} (h : a ∈ (stepGenGuildAdd env vg st).groups) :
    a ∈ st.groups ∨ (vg.isSome = true ∧ a = ⟨env.genericGuildId, "Generic Guild"⟩) := by
  rw [stepGenGuildAdd] at h
  split_ifs at h with hc
  · rcases add_group_subset h with h' | h'
    · exact Or.inl h'
    · rw [Bool.and_eq_true] at hc
      exact Or.inr ⟨hc.1, h'⟩
  · exact Or.inl h

theorem stepGenGuildRemove_mem {env : SyncEnv} {vg : Option (Nat × String)} {st : SyncState}
    {a : ServerGroup} (h : a ∈ (stepGenGuildRemove env vg st).groups) : a ∈ st.groups := by
  rw [stepGenGuildRemove] at h
  split_ifs at h
  · exact remove_group_subset h
  · exact h

theorem stepGuildAdd_mem {vg : Option (Nat × String)} {st : SyncState}
    {a : ServerGroup} (h : a ∈ (stepGuildAdd vg st).groups) :
    a ∈ st.groups ∨ (∃ p, vg = some p ∧ a = ⟨p.1, p.2⟩) := by
  rcases vg with _ | p
  · exact Or.inl h
  · rw [stepGuildAdd] at h
    split_ifs at h
    · rcases add_group_subset h with h' | h'
      · exact Or.inl h'
      · exact Or.inr ⟨p, rfl, h'⟩
    · exact Or.inl h

theorem stepGenWorldAdd_mem {env : SyncEnv} {vg : Option (Nat × String)}
    {vw : Option WorldGroupRow} {st : SyncState}
    {a : ServerGroup} (h : a ∈ (stepGenWorldAdd env vg vw st).groups) :
    a ∈ st.groups ∨ (vg.isNone = true ∧ a = ⟨env.genericWorldId, "Generic World"⟩) := by
  rcases vw with _ | w
  · exact Or.inl h
  · rw [stepGenWorldAdd] at h
    split_ifs at h with hc
    · rcases add_group_subset h with h' | h'
      · exact Or.inl h'
      · rw [Bool.and_eq_true, Bool.and_eq_true] at hc
        exact Or.inr ⟨hc.2, h'⟩
    · exact Or.inl h

theorem stepGenWorldRemove_mem {env : SyncEnv} {vg : Option (Nat × String)}
    {vw : Option WorldGroupRow} {st : SyncState}
    {a : ServerGroup} (h : a ∈ (stepGenWorldRemove env vg vw st).groups) : a ∈ st.groups := by
  rw [stepGenWorldRemove.eq_def] at h
  split_ifs at h
  · exact remove_group_subset h
  · exact h

theorem stepWorldAdd_mem {vw : Option WorldGroupRow} {st : SyncState}
    {a : ServerGroup} (h : a ∈ (stepWorldAdd vw st).groups) :
    a ∈ st.groups ∨ (∃ w, vw = some w ∧ a = ⟨w.groupId, w.properName⟩) := by
  rcases vw with _ | w
  · exact Or.inl h
  · rw [stepWorldAdd] at h
    split_ifs at h
    · rcases add_group_subset h with h' | h'
      · exact Or.inl h'
      · exact Or.inr ⟨w, rfl, h'⟩
    · exact Or.inl h

/-! ### hasGroup transfer across the late rules -/

theorem stepGenGuildAdd_mono {env : SyncEnv} {vg : Option (Nat × String)} {st : SyncState}
    {x : Nat} (h : hasGroup st.groups x = true) :
    hasGroup (stepGenGuildAdd env vg st).groups x = true := by
  rw [stepGenGuildAdd]
  split_ifs
  · rw [add_group_hasGroup, h]; rfl
  · exact h

theorem stepGenGuildAdd_preserve {env : SyncEnv} {vg : Option (Nat × String)} {st : SyncState}
    {x : Nat} (hx : x ≠ env.genericGuildId) :
    hasGroup (stepGenGuildAdd env vg st).groups x = hasGroup st.groups x := by
  rw [stepGenGuildAdd]
  split_ifs
  · rw [add_group_hasGroup]
    have : ((ServerGroup.mk env.genericGuildId "Generic Guild").sgid == x) = false :=
      beq_eq_false_iff_ne.mpr (fun hc => hx hc.symm)
    rw [this, Bool.or_false]
  · rfl

theorem stepGenGuildAdd_self {env : SyncEnv} {vg : Option (Nat × String)} {st : SyncState}
    (hvg : vg.isSome = true) :
    hasGroup (stepGenGuildAdd env vg st).groups env.genericGuildId = true := by
  rw [stepGenGuildAdd]
  split_ifs with hc
  · rw [add_group_hasGroup]; simp
  · rw [hvg, Bool.true_and, Bool.not_eq_true', Bool.not_eq_false] at hc
    exact hc

theorem stepGenGuildAdd_id {env : SyncEnv} {vg : Option (Nat × String)} {st : SyncState}
    (hvg : vg = none) : stepGenGuildAdd env vg st = st := by
  rw [stepGenGuildAdd, hvg]
  simp

theorem stepGenGuildRemove_id {env : SyncEnv} {vg : Option (Nat × String)} {st : SyncState}
    (hvg : vg.isSome = true) : stepGenGuildRemove env vg st = st := by
  rw [stepGenGuildRemove]
  have : vg.isNone = false := by
    rcases vg with _ | p
    · cases hvg
    · rfl
  rw [this]
  simp

theorem stepGenGuildRemove_preserve {env : SyncEnv} {vg : Option (Nat × String)} {st : SyncState}
    {x : Nat} (hx : x ≠ env.genericGuildId) (hnd : GroupsOK st.groups) :
    hasGroup (stepGenGuildRemove env vg st).groups x = hasGroup st.groups x := by
  rw [stepGenGuildRemove]
  split_ifs
  · rw [remove_group_hasGroup _ _ _ hnd]
    have : ((ServerGroup.mk env.genericGuildId "Generic Guild").sgid == x) = false :=
      beq_eq_false_iff_ne.mpr (fun hc => hx hc.symm)
    rw [this]
    simp
  · rfl

theorem stepGenGuildRemove_kill {env : SyncEnv} {vg : Option (Nat × String)} {st : SyncState}
    (hvg : vg = none) (hnd : GroupsOK st.groups) :
    hasGroup (stepGenGuildRemove env vg st).groups env.genericGuildId = false := by
  rw [stepGenGuildRemove, hvg]
  split_ifs with hc
  · exact remove_group_hasGroup_self st _ hnd
  · simp only [Option.isNone_none, Bool.and_true] at hc
    exact Bool.not_eq_true _ ▸ hc

theorem stepGuildAdd_mono {vg : Option (Nat × String)} {st : SyncState}
    {x : Nat} (h : hasGroup st.groups x = true) :
    hasGroup (stepGuildAdd vg st).groups x = true := by
  rcases vg with _ | p
  · exact h
  · rw [stepGuildAdd]
    split_ifs
    · rw [add_group_hasGroup, h]; rfl
    · exact h

theorem stepGuildAdd_preserve {vg : Option (Nat × String)} {st : SyncState}
    {x : Nat} (hp : ∀ p, vg = some p → p.1 ≠ x) :
    hasGroup (stepGuildAdd vg st).groups x = hasGroup st.groups x := by
  rcases vg with _ | p
  · rfl
  · rw [stepGuildAdd]
    split_ifs
    · rw [add_group_hasGroup]
      have : ((ServerGroup.mk p.1 p.2).sgid == x) = false :=
        beq_eq_false_iff_ne.mpr (hp p rfl)
      rw [this, Bool.or_false]
    · rfl

theorem stepGuildAdd_self {vg : Option (Nat × String)} {st : SyncState}
    {p : Nat × String} (hvg : vg = some p) :
    hasGroup (stepGuildAdd vg st).groups p.1 = true := by
  subst hvg
  rw [stepGuildAdd]
  split_ifs with hc
  · rw [add_group_hasGroup]; simp
  · rw [Bool.not_eq_true', Bool.not_eq_false] at hc
    exact hc

theorem stepGuildAdd_id {vg : Option (Nat × String)} {st : SyncState}
    (hvg : vg = none) : stepGuildAdd vg st = st := by
  rw [hvg, stepGuildAdd]

theorem stepGenWorldAdd_mono {env : SyncEnv} {vg : Option (Nat × String)}
    {vw : Option WorldGroupRow} {st : SyncState}
    {x : Nat} (h : hasGroup st.groups x = true) :
    hasGroup (stepGenWorldAdd env vg vw st).groups x = true := by
  rcases vw with _ | w
  · exact h
  · rw [stepGenWorldAdd]
    split_ifs
    · rw [add_group_hasGroup, h]; rfl
    · exact h

theorem stepGenWorldAdd_preserve {env : SyncEnv} {vg : Option (Nat × String)}
    {vw : Option WorldGroupRow} {st : SyncState}
    {x : Nat} (hx : x ≠ env.genericWorldId) :
    hasGroup (stepGenWorldAdd env vg vw st).groups x = hasGroup st.groups x := by
  rcases vw with _ | w
  · rfl
  · rw [stepGenWorldAdd]
    split_ifs
    · rw [add_group_hasGroup]
      have : ((ServerGroup.mk env.genericWorldId "Generic World").sgid == x) = false :=
        beq_eq_false_iff_ne.mpr (fun hc => hx hc.symm)
      rw [this, Bool.or_false]
    · rfl

theorem stepGenWorldAdd_self {env : SyncEnv} {vg : Option (Nat × String)}
    {vw : Option WorldGroupRow} {st : SyncState} {w : WorldGroupRow}
    (hvw : vw = some w) (hl : w.isLinked = true) (hvg : vg = none) :
    hasGroup (stepGenWorldAdd env vg vw st).groups env.genericWorldId = true := by
  subst hvw; subst hvg
  rw [stepGenWorldAdd]
  split_ifs with hc
  · rw [add_group_hasGroup]; simp
  · rw [hl] at hc
    simp only [Option.isNone_none, Bool.and_true, Bool.true_and,
      Bool.not_eq_true', Bool.not_eq_false] at hc
    exact hc

theorem stepGenWorldRemove_preserve {env : SyncEnv} {vg : Option (Nat × String)}
    {vw : Option WorldGroupRow} {st : SyncState}
    {x : Nat} (hx : x ≠ env.genericWorldId) (hnd : GroupsOK st.groups) :
    hasGroup (stepGenWorldRemove env vg vw st).groups x = hasGroup st.groups x := by
  rw [stepGenWorldRemove.eq_def]
  split_ifs
  · rw [remove_group_hasGroup _ _ _ hnd]
    have : ((ServerGroup.mk env.genericWorldId "Generic World").sgid == x) = false :=
      beq_eq_false_iff_ne.mpr (fun hc => hx hc.symm)
    rw [this]
    simp
  · rfl

theorem stepGenWorldRemove_absent {env : SyncEnv} {vg : Option (Nat × String)}
    {vw : Option WorldGroupRow} {st : SyncState}
    (hnd : GroupsOK st.groups)
    (hcond : ((match vw with | some w => !w.isLinked | none => true) || vg.isSome) = true) :
    hasGroup (stepGenWorldRemove env vg vw st).groups env.genericWorldId = false := by
  rw [stepGenWorldRemove.eq_def]
  split_ifs with hc
  · exact remove_group_hasGroup_self st _ hnd
  · rw [hcond, Bool.and_true, Bool.not_eq_true] at hc
    exact hc

theorem stepGenWorldRemove_id {env : SyncEnv} {vg : Option (Nat × String)}
    {vw : Option WorldGroupRow} {st : SyncState}
    (hcond : ((match vw with | some w => !w.isLinked | none => true) || vg.isSome) = false) :
    stepGenWorldRemove env vg vw st = st := by
  rw [stepGenWorldRemove.eq_def, hcond]
  simp

theorem stepWorldAdd_mono {vw : Option WorldGroupRow} {st : SyncState}
    {x : Nat} (h : hasGroup st.groups x = true) :
    hasGroup (stepWorldAdd vw st).groups x = true := by
  rcases vw with _ | w
  · exact h
  · rw [stepWorldAdd]
    split_ifs
    · rw [add_group_hasGroup, h]; rfl
    · exact h

theorem stepWorldAdd_preserve {vw : Option WorldGroupRow} {st : SyncState}
    {x : Nat} (hw : ∀ w, vw = some w → w.groupId ≠ x) :
    hasGroup (stepWorldAdd vw st).groups x = hasGroup st.groups x := by
  rcases vw with _ | w
  · rfl
  · rw [stepWorldAdd]
    split_ifs
    · rw [add_group_hasGroup]
      have : ((ServerGroup.mk w.groupId w.properName).sgid == x) = false :=
        beq_eq_false_iff_ne.mpr (hw w rfl)
      rw [this, Bool.or_false]
    · rfl

theorem stepWorldAdd_self {vw : Option WorldGroupRow} {st : SyncState} {w : WorldGroupRow}
    (hvw : vw = some w) :
    hasGroup (stepWorldAdd vw st).groups w.groupId = true := by
  subst hvw
  rw [stepWorldAdd]
  split_ifs with hc
  · rw [add_group_hasGroup]; simp
  · rw [Bool.not_eq_true', Bool.not_eq_false] at hc
    exact hc

theorem stepWorldAdd_id {vw : Option WorldGroupRow} {st : SyncState}
    (hvw : vw = none) : stepWorldAdd vw st = st := by
  rw [hvw, stepWorldAdd]

/-! ### `lateSteps` lemmas -/

theorem lateSteps_GroupsOK (env : SyncEnv) (vg : Option (Nat × String))
    (vw : Option WorldGroupRow) (st : SyncState) (hnd : GroupsOK st.groups) :
    GroupsOK (lateSteps env vg vw st).groups := by
  rw [lateSteps]
  exact stepWorldAdd_GroupsOK _ _
    (stepGenWorldRemove_GroupsOK _ _ _ _
      (stepGenWorldAdd_GroupsOK _ _ _ _
        (stepGuildAdd_GroupsOK _ _
          (stepGenGuildRemove_GroupsOK _ _ _
            (stepGenGuildAdd_GroupsOK _ _ _ hnd)))))

theorem lateSteps_mem {env : SyncEnv} {vg : Option (Nat × String)}
    {vw : Option WorldGroupRow} {st : SyncState} {a : ServerGroup}
    (h : a ∈ (lateSteps env vg vw st).groups) :
    a ∈ st.groups
      ∨ (vg.isSome = true ∧ a = ⟨env.genericGuildId, "Generic Guild"⟩)
      ∨ (∃ p, vg = some p ∧ a = ⟨p.1, p.2⟩)
      ∨ (vg.isNone = true ∧ a = ⟨env.genericWorldId, "Generic World"⟩)
      ∨ (∃ w, vw = some w ∧ a = ⟨w.groupId, w.properName⟩) := by
  rw [lateSteps] at h
  rcases stepWorldAdd_mem h with h | h
  · rcases stepGenWorldAdd_mem (stepGenWorldRemove_mem h) with h | h
    · rcases stepGuildAdd_mem h with h | h
      · rcases stepGenGuildAdd_mem (stepGenGuildRemove_mem h) with h | h
        · exact Or.inl h
        · exact Or.inr (Or.inl h)
      · exact Or.inr (Or.inr (Or.inl h))
    · exact Or.inr (Or.inr (Or.inr (Or.inl h)))
  · exact Or.inr (Or.inr (Or.inr (Or.inr h)))

theorem lateSteps_genGuild {env : SyncEnv} {vg : Option (Nat × String)}
    {vw : Option WorldGroupRow} {st : SyncState}
    (hnd : GroupsOK st.groups)
    (hne : env.genericWorldId ≠ env.genericGuildId)
    (hw : ∀ w, vw = some w → w.groupId ≠ env.genericGuildId) :
    hasGroup (lateSteps env vg vw st).groups env.genericGuildId = vg.isSome := by
  have hnd1 := stepGenGuildAdd_GroupsOK env vg st hnd
  have hnd2 := stepGenGuildRemove_GroupsOK env vg _ hnd1
  have hnd3 := stepGuildAdd_GroupsOK vg _ hnd2
  have hnd4 := stepGenWorldAdd_GroupsOK env vg vw _ hnd3
  rw [lateSteps]
  rcases hvg : vg with _ | p
  · subst hvg
    rw [stepWorldAdd_preserve (fun w hvw hc => hw w hvw hc)]
    rw [stepGenWorldRemove_preserve (fun hc => hne hc.symm) hnd4]
    rw [stepGenWorldAdd_preserve (fun hc => hne hc.symm)]
    rw [stepGuildAdd_id rfl]
    rw [stepGenGuildRemove_kill rfl hnd1]
    rfl
  · subst hvg
    have h1 : hasGroup (stepGenGuildAdd env (some p) st).groups env.genericGuildId = true :=
      stepGenGuildAdd_self rfl
    have h2 : hasGroup (stepGenGuildRemove env (some p)
        (stepGenGuildAdd env (some p) st)).groups env.genericGuildId = true := by
      rw [@stepGenGuildRemove_id env (some p) _ rfl]
      exact h1
    have h3 := @stepGuildAdd_mono (some p) _ _ h2
    have h4 := @stepGenWorldAdd_mono env (some p) vw _ _ h3
    have h5 : hasGroup (stepGenWorldRemove env (some p) vw
        (stepGenWorldAdd env (some p) vw (stepGuildAdd (some p)
          (stepGenGuildRemove env (some p) (stepGenGuildAdd env (some p) st))))).groups
        env.genericGuildId = true := by
      rw [stepGenWorldRemove_preserve (fun hc => hne hc.symm) hnd4]
      exact h4
    rw [stepWorldAdd_mono h5]
    rfl

theorem lateSteps_guild {env : SyncEnv} {vg : Option (Nat × String)}
    {vw : Option WorldGroupRow} {st : SyncState} {p : Nat × String}
    (hnd : GroupsOK st.groups)
    (hvg : vg = some p)
    (hpgw : p.1 ≠ env.genericWorldId) :
    hasGroup (lateSteps env vg vw st).groups p.1 = true := by
  subst hvg
  have hnd1 := stepGenGuildAdd_GroupsOK env (some p) st hnd
  have hnd2 := stepGenGuildRemove_GroupsOK env (some p) _ hnd1
  have hnd3 := stepGuildAdd_GroupsOK (some p) _ hnd2
  have hnd4 := stepGenWorldAdd_GroupsOK env (some p) vw _ hnd3
  rw [lateSteps]
  have h3 : hasGroup (stepGuildAdd (some p)
      (stepGenGuildRemove env (some p) (stepGenGuildAdd env (some p) st))).groups p.1 = true :=
    stepGuildAdd_self rfl
  have h4 := @stepGenWorldAdd_mono env (some p) vw _ _ h3
  have h5 : hasGroup (stepGenWorldRemove env (some p) vw
      (stepGenWorldAdd env (some p) vw (stepGuildAdd (some p)
        (stepGenGuildRemove env (some p) (stepGenGuildAdd env (some p) st))))).groups p.1
      = true := by
    rw [stepGenWorldRemove_preserve hpgw hnd4]
    exact h4
  exact stepWorldAdd_mono h5

theorem lateSteps_genWorld_none {env : SyncEnv} {vg : Option (Nat × String)}
    {vw : Option WorldGroupRow} {st : SyncState}
    (hnd : GroupsOK st.groups) (hvw : vw = none) :
    hasGroup (lateSteps env vg vw st).groups env.genericWorldId = false := by
  subst hvw
  have hnd1 := stepGenGuildAdd_GroupsOK env vg st hnd
  have hnd2 := stepGenGuildRemove_GroupsOK env vg _ hnd1
  have hnd3 := stepGuildAdd_GroupsOK vg _ hnd2
  have hnd4 := stepGenWorldAdd_GroupsOK env vg none _ hnd3
  rw [lateSteps]
  rw [stepWorldAdd_id rfl]
  rw [stepGenWorldRemove_absent hnd4 (by simp)]

theorem lateSteps_genWorld_some {env : SyncEnv} {vg : Option (Nat × String)}
    {vw : Option WorldGroupRow} {st : SyncState} {w : WorldGroupRow}
    (hnd : GroupsOK st.groups) (hvw : vw = some w)
    (hwne : w.groupId ≠ env.genericWorldId) :
    hasGroup (lateSteps env vg vw st).groups env.genericWorldId =
      (vg.isNone && w.isLinked) := by
  subst hvw
  have hnd1 := stepGenGuildAdd_GroupsOK env vg st hnd
  have hnd2 := stepGenGuildRemove_GroupsOK env vg _ hnd1
  have hnd3 := stepGuildAdd_GroupsOK vg _ hnd2
  have hnd4 := stepGenWorldAdd_GroupsOK env vg (some w) _ hnd3
  have hwp : ∀ w', (some w : Option WorldGroupRow) = some w' →
      w'.groupId ≠ env.genericWorldId := by
    intro w' hw'
    cases Option.some.inj hw'
    exact hwne
  rw [lateSteps]
  rcases hvg : vg with _ | p
  · subst hvg
    rcases hl : w.isLinked with _ | _
    · rw [stepWorldAdd_preserve hwp]
      rw [stepGenWorldRemove_absent hnd4 (by simp [hl])]
      simp [hl]
    · have h4 : hasGroup (stepGenWorldAdd env none (some w)
          (stepGuildAdd none (stepGenGuildRemove env none
            (stepGenGuildAdd env none st)))).groups env.genericWorldId = true :=
        stepGenWorldAdd_self rfl hl rfl
      rw [stepGenWorldRemove_id (by simp [hl])]
      rw [stepWorldAdd_mono h4]
      simp [hl]
  · subst hvg
    rw [stepWorldAdd_preserve hwp]
    rw [stepGenWorldRemove_absent hnd4 (by simp)]
    rfl

theorem lateSteps_world {env : SyncEnv} {vg : Option (Nat × String)}
    {vw : Option WorldGroupRow} {st : SyncState} {w : WorldGroupRow}
    (hvw : vw = some w) :
    hasGroup (lateSteps env vg vw st).groups w.groupId = true := by
  rw [lateSteps]
  exact stepWorldAdd_self hvw

theorem lateSteps_id {env : SyncEnv} {vg : Option (Nat × String)}
    {vw : Option WorldGroupRow} {st : SyncState}
    (hgg : hasGroup st.groups env.genericGuildId = vg.isSome)
    (hgid : ∀ p, vg = some p → hasGroup st.groups p.1 = true)
    (hgw : hasGroup st.groups env.genericWorldId =
      (vg.isNone && (match vw with | some w => w.isLinked | none => false)))
    (hw : ∀ w, vw = some w → hasGroup st.groups w.groupId = true) :
    lateSteps env vg vw st = st := by
  rw [lateSteps]
  have e1 : stepGenGuildAdd env vg st = st := by
    rw [stepGenGuildAdd]
    rcases hvg : vg with _ | p
    · simp
    · rw [hvg] at hgg
      rw [hgg]
      simp
  rw [e1]
  have e2 : stepGenGuildRemove env vg st = st := by
    rw [stepGenGuildRemove]
    rcases hvg : vg with _ | p
    · rw [hvg] at hgg
      rw [hgg]
      simp
    · simp
  rw [e2]
  have e3 : stepGuildAdd vg st = st := by
    rcases hvg : vg with _ | p
    · rw [stepGuildAdd]
    · rw [stepGuildAdd, hgid p hvg]
      simp
  rw [e3]
  have e4 : stepGenWorldAdd env vg vw st = st := by
    rcases hvw : vw with _ | w
    · rw [stepGenWorldAdd]
    · rw [stepGenWorldAdd]
      rcases hvg : vg with _ | p
      · rw [hvg, hvw] at hgw
        rcases hl : w.isLinked with _ | _
        · simp [hl]
        · rw [hgw]
          simp [hl]
      · simp
  rw [e4]
  have e5 : stepGenWorldRemove env vg vw st = st := by
    rw [stepGenWorldRemove.eq_def]
    rcases hvg : vg with _ | p
    · rcases hvw : vw with _ | w
      · rw [hvg, hvw] at hgw
        rw [hgw]
        simp
      · rcases hl : w.isLinked with _ | _
        · rw [hvg, hvw] at hgw
          rw [hgw]
          simp [hl]
        · simp [hl]
    · rw [hvg] at hgw
      rw [hgw]
      simp
  rw [e5]
  rcases hvw : vw with _ | w
  · rw [stepWorldAdd]
  · rw [stepWorldAdd, hw w hvw]
    simp

/-! ### `applyRules` lemmas -/

theorem stepAdditional_GroupsOK (env : SyncEnv) (vg : Option (Nat × String))
    (m : List ServerGroup) (st : SyncState) (hnd : GroupsOK st.groups) :
    GroupsOK (stepAdditional env vg m st).groups := by
  rw [stepAdditional]
  split_ifs
  · rw [removeAdditional]
    exact foldl_additionalStep_GroupsOK hnd
  · exact hnd

theorem stepAdditional_subset {env : SyncEnv} {vg : Option (Nat × String)}
    {m : List ServerGroup} {st : SyncState} {a : ServerGroup}
    (h : a ∈ (stepAdditional env vg m st).groups) : a ∈ st.groups := by
  rw [stepAdditional] at h
  split_ifs at h
  · rw [removeAdditional] at h
    exact foldl_additionalStep_subset h
  · exact h

theorem applyRules_GroupsOK {env : SyncEnv} {vg : Option (Nat × String)}
    {vw : Option WorldGroupRow} {m inv : List ServerGroup} (hm : GroupsOK m) :
    GroupsOK (applyRules env vg vw m inv).groups := by
  rw [applyRules]
  exact lateSteps_GroupsOK _ _ _ _
    (stepAdditional_GroupsOK _ _ _ _ (stepInvalid_GroupsOK inv ⟨m, [], []⟩ hm))

theorem applyRules_mem {env : SyncEnv} {vg : Option (Nat × String)}
    {vw : Option WorldGroupRow} {m inv : List ServerGroup} {a : ServerGroup}
    (hm : GroupsOK m) (ha : a ∈ (applyRules env vg vw m inv).groups) :
    (a ∈ m ∧ a ∉ inv)
      ∨ (vg.isSome = true ∧ a = ⟨env.genericGuildId, "Generic Guild"⟩)
      ∨ (∃ p, vg = some p ∧ a = ⟨p.1, p.2⟩)
      ∨ (vg.isNone = true ∧ a = ⟨env.genericWorldId, "Generic World"⟩)
      ∨ (∃ w, vw = some w ∧ a = ⟨w.groupId, w.properName⟩) := by
  rw [applyRules] at ha
  rcases lateSteps_mem ha with h | h
  · have h1 := stepAdditional_subset h
    exact Or.inl ⟨stepInvalid_subset h1, @stepInvalid_not_mem inv ⟨m, [], []⟩ a hm h1⟩
  · exact Or.inr h

theorem applyRules_genGuild {env : SyncEnv} {vg : Option (Nat × String)}
    {vw : Option WorldGroupRow} {m inv : List ServerGroup}
    (hm : GroupsOK m)
    (hne : env.genericWorldId ≠ env.genericGuildId)
    (hw : ∀ w, vw = some w → w.groupId ≠ env.genericGuildId) :
    hasGroup (applyRules env vg vw m inv).groups env.genericGuildId = vg.isSome := by
  rw [applyRules]
  exact lateSteps_genGuild
    (stepAdditional_GroupsOK _ _ _ _ (stepInvalid_GroupsOK inv ⟨m, [], []⟩ hm)) hne hw

theorem applyRules_guild {env : SyncEnv} {vg : Option (Nat × String)}
    {vw : Option WorldGroupRow} {m inv : List ServerGroup} {p : Nat × String}
    (hm : GroupsOK m) (hvg : vg = some p) (hpgw : p.1 ≠ env.genericWorldId) :
    hasGroup (applyRules env vg vw m inv).groups p.1 = true := by
  rw [applyRules]
  exact lateSteps_guild
    (stepAdditional_GroupsOK _ _ _ _ (stepInvalid_GroupsOK inv ⟨m, [], []⟩ hm)) hvg hpgw

theorem applyRules_genWorld_none {env : SyncEnv} {vg : Option (Nat × String)}
    {vw : Option WorldGroupRow} {m inv : List ServerGroup}
    (hm : GroupsOK m) (hvw : vw = none) :
    hasGroup (applyRules env vg vw m inv).groups env.genericWorldId = false := by
  rw [applyRules]
  exact lateSteps_genWorld_none
    (stepAdditional_GroupsOK _ _ _ _ (stepInvalid_GroupsOK inv ⟨m, [], []⟩ hm)) hvw

theorem applyRules_genWorld_some {env : SyncEnv} {vg : Option (Nat × String)}
    {vw : Option WorldGroupRow} {m inv : List ServerGroup} {w : WorldGroupRow}
    (hm : GroupsOK m) (hvw : vw = some w) (hwne : w.groupId ≠ env.genericWorldId) :
    hasGroup (applyRules env vg vw m inv).groups env.genericWorldId =
      (vg.isNone && w.isLinked) := by
  rw [applyRules]
  exact lateSteps_genWorld_some
    (stepAdditional_GroupsOK _ _ _ _ (stepInvalid_GroupsOK inv ⟨m, [], []⟩ hm)) hvw hwne

theorem applyRules_world {env : SyncEnv} {vg : Option (Nat × String)}
    {vw : Option WorldGroupRow} {m inv : List ServerGroup} {w : WorldGroupRow}
    (hvw : vw = some w) :
    hasGroup (applyRules env vg vw m inv).groups w.groupId = true := by
  rw [applyRules]
  exact lateSteps_world hvw

/-! ### Uniqueness of name matches -/

theorem length_le_one_eq {α : Type} {l : List α} (h : l.length ≤ 1) {a b : α}
    (ha : a ∈ l) (hb : b ∈ l) : a = b := by
  rcases l with _ | ⟨x, _ | ⟨y, t⟩⟩
  · cases ha
  · rw [List.mem_singleton.mp ha, List.mem_singleton.mp hb]
  · simp at h

theorem find_of_count_le_one {m : List ServerGroup} {a : ServerGroup}
    (hc : (m.filter (fun g => g.name == a.name)).length ≤ 1) (ha : a ∈ m) :
    m.find? (fun g => g.name == a.name) = some a := by
  induction m with
  | nil => cases ha
  | cons g m ih =>
    by_cases hg : (g.name == a.name) = true
    · have hgf : g ∈ (g :: m).filter (fun g => g.name == a.name) :=
        List.mem_filter.mpr ⟨List.mem_cons_self _ _, hg⟩
      have haf : a ∈ (g :: m).filter (fun g => g.name == a.name) :=
        List.mem_filter.mpr ⟨ha, by simp⟩
      rw [List.find?_cons, hg]
      exact congrArg some (length_le_one_eq hc hgf haf)
    · have hg' : (g.name == a.name) = false := by simpa using hg
      rw [List.find?_cons, hg']
      have ham : a ∈ m := by
        rcases List.mem_cons.mp ha with rfl | h
        · exact absurd (by simp) hg
        · exact h
      have hc' : (m.filter (fun g => g.name == a.name)).length ≤ 1 := by
        rw [List.filter_cons_of_neg (by simpa using hg)] at hc
        exact hc
      exact ih hc' ham

theorem applyRules_no_additional_name {env : SyncEnv} {vg : Option (Nat × String)}
    {vw : Option WorldGroupRow} {m inv : List ServerGroup} {a : ServerGroup}
    (hm : GroupsOK m) (hvg : vg = none)
    (hcount : ∀ n ∈ env.additionalGuildGroups,
      ((m.filter (fun g => g.name == n)).length ≤ 1))
    (hgen : "Generic World" ∉ env.additionalGuildGroups)
    (hprop : ∀ w, vw = some w → w.properName ∉ env.additionalGuildGroups)
    (ha : a ∈ (applyRules env vg vw m inv).groups) :
    a.name ∉ env.additionalGuildGroups := by
  intro hn
  rw [applyRules] at ha
  have hndInv : GroupsOK (stepInvalid inv ⟨m, [], []⟩).groups :=
    stepInvalid_GroupsOK inv ⟨m, [], []⟩ hm
  rcases lateSteps_mem ha with h | h | h | h | h
  · -- a would have survived the by-name cleanup: impossible
    rw [stepAdditional, hvg] at h
    simp only [Option.isNone_none, if_true] at h
    rw [removeAdditional] at h
    have ham : a ∈ m := stepInvalid_subset (foldl_additionalStep_subset h)
    have hfind : m.find? (fun g => g.name == a.name) = some a :=
      find_of_count_le_one (hcount a.name hn) ham
    have hkill := @foldl_additionalStep_kill env.additionalGuildGroups m
      (stepInvalid inv ⟨m, [], []⟩) a.name a hndInv hn hfind
    have hin := hasGroup_of_mem h
    rw [hkill] at hin
    exact absurd hin (by simp)
  · rw [hvg] at h
    simp at h
  · rcases h with ⟨p, hp, _⟩
    rw [hvg] at hp
    cases hp
  · rcases h with ⟨_, rfl⟩
    exact hgen hn
  · rcases h with ⟨w, hw', rfl⟩
    exact hprop w hw' hn

/-! ### Scan-loop lemmas -/

theorem collectInvalid_sound {env : SyncEnv} {vg : Option (Nat × String)}
    {vw : Option WorldGroupRow} {sw : Bool} :
    ∀ {gs inv : List ServerGroup}, collectInvalid env vg vw sw gs = some inv →
      ∀ g ∈ gs, skipKnownValid vg vw g = true ∨ unknownGroup env g = true ∨ g ∈ inv := by
  intro gs
  induction gs with
  | nil =>
    intro inv _ g hg
    cases hg
  | cons g0 gs ih =>
    intro inv h g hg
    by_cases h1 : skipKnownValid vg vw g0 = true
    · rw [collectInvalid, if_pos h1] at h
      rcases List.mem_cons.mp hg with rfl | hmem
      · exact Or.inl h1
      · exact ih h g hmem
    · by_cases h2 : (sw && env.whitelistGroups.contains g0.name) = true
      · rw [collectInvalid, if_neg h1, if_pos h2] at h
        cases h
      · by_cases h3 : unknownGroup env g0 = true
        · rw [collectInvalid, if_neg h1, if_neg h2, if_pos h3] at h
          rcases List.mem_cons.mp hg with rfl | hmem
          · exact Or.inr (Or.inl h3)
          · exact ih h g hmem
        · rw [collectInvalid, if_neg h1, if_neg h2, if_neg h3] at h
          rcases Option.map_eq_some'.mp h with ⟨inv', hinv', rfl⟩
          rcases List.mem_cons.mp hg with rfl | hmem
          · exact Or.inr (Or.inr (List.mem_cons_self _ _))
          · rcases ih hinv' g hmem with h' | h' | h'
            · exact Or.inl h'
            · exact Or.inr (Or.inl h')
            · exact Or.inr (Or.inr (List.mem_cons_of_mem _ h'))

theorem collectInvalid_of_all_skip {env : SyncEnv} {vg : Option (Nat × String)}
    {vw : Option WorldGroupRow} {sw : Bool} {gs : List ServerGroup}
    (h : ∀ g ∈ gs, skipKnownValid vg vw g = true ∨ unknownGroup env g = true) :
    collectInvalid env vg vw sw gs = none ∨ collectInvalid env vg vw sw gs = some [] := by
  induction gs with
  | nil => exact Or.inr rfl
  | cons g0 gs ih =>
    have ht : ∀ g ∈ gs, skipKnownValid vg vw g = true ∨ unknownGroup env g = true :=
      fun g hg => h g (List.mem_cons_of_mem _ hg)
    by_cases hs0 : skipKnownValid vg vw g0 = true
    · rw [collectInvalid, if_pos hs0]
      exact ih ht
    · rcases h g0 (List.mem_cons_self _ _) with h1 | hunk
      · exact absurd h1 hs0
      · by_cases hwl : (sw && env.whitelistGroups.contains g0.name) = true
        · rw [collectInvalid, if_neg hs0, if_pos hwl]
          exact Or.inl rfl
        · rw [collectInvalid, if_neg hs0, if_neg hwl, if_pos hunk]
          exact ih ht

theorem collectInvalid_abort {env : SyncEnv} {vg : Option (Nat × String)}
    {vw : Option WorldGroupRow} {gs : List ServerGroup} {g : ServerGroup}
    (hg : g ∈ gs) (hskip : skipKnownValid vg vw g = false)
    (hwl : env.whitelistGroups.contains g.name = true) :
    collectInvalid env vg vw true gs = none := by
  induction gs with
  | nil => cases hg
  | cons g0 gs ih =>
    rcases List.mem_cons.mp hg with rfl | hmem
    · rw [collectInvalid, if_neg (by rw [hskip]; exact Bool.false_ne_true),
        if_pos (by rw [hwl]; rfl)]
    · by_cases hs0 : skipKnownValid vg vw g0 = true
      · rw [collectInvalid, if_pos hs0]
        exact ih hmem
      · by_cases hw0 : env.whitelistGroups.contains g0.name = true
        · rw [collectInvalid, if_neg hs0, if_pos (by rw [hw0]; rfl)]
        · by_cases hu0 : unknownGroup env g0 = true
          · rw [collectInvalid, if_neg hs0,
              if_neg (by simp only [Bool.true_and]; exact hw0), if_pos hu0]
            exact ih hmem
          · rw [collectInvalid, if_neg hs0,
              if_neg (by simp only [Bool.true_and]; exact hw0), if_neg hu0, ih hmem]
            rfl

/-! ### Unfolding equations for `sync_groups` -/

theorem sync_groups_eq_abort {env : SyncEnv} {acc : Option AccountView}
    {removeAll sw : Bool} {m : List ServerGroup}
    (h : collectInvalid env (effectiveGuild acc removeAll) (effectiveWorld acc removeAll)
      sw m = none) :
    sync_groups env acc removeAll sw m = ⟨m, [], [], true⟩ := by
  rw [sync_groups]
  rw [h]

theorem sync_groups_eq_run {env : SyncEnv} {acc : Option AccountView}
    {removeAll sw : Bool} {m inv : List ServerGroup}
    (h : collectInvalid env (effectiveGuild acc removeAll) (effectiveWorld acc removeAll)
      sw m = some inv) :
    sync_groups env acc removeAll sw m =
      ⟨(applyRules env (effectiveGuild acc removeAll) (effectiveWorld acc removeAll) m inv).groups,
       (applyRules env (effectiveGuild acc removeAll) (effectiveWorld acc removeAll) m inv).added,
       (applyRules env (effectiveGuild acc removeAll) (effectiveWorld acc removeAll) m inv).removed,
       false⟩ := by
  rw [sync_groups]
  rw [h]

/-! ### A stable membership is a fixed point of the rules -/

theorem contains_false {l : List Nat} {a : Nat} (h : a ∉ l) : l.contains a = false := by
  simpa using h

theorem skipKnownValid_of_guild {vg : Option (Nat × String)} {vw : Option WorldGroupRow}
    {p : Nat × String} (hp : vg = some p) :
    skipKnownValid vg vw (⟨p.1, p.2⟩ : ServerGroup) = true := by
  subst hp
  rw [skipKnownValid.eq_def]
  simp

theorem skipKnownValid_of_world {vg : Option (Nat × String)} {vw : Option WorldGroupRow}
    {w : WorldGroupRow} (hw : vw = some w) :
    skipKnownValid vg vw (⟨w.groupId, w.properName⟩ : ServerGroup) = true := by
  subst hw
  rw [skipKnownValid.eq_def]
  simp

theorem applyRules_empty_on_stable {env : SyncEnv} {vg : Option (Nat × String)}
    {vw : Option WorldGroupRow} {G2 : List ServerGroup}
    (hadd : vg = none → ∀ n ∈ env.additionalGuildGroups,
      G2.find? (fun g => g.name == n) = none)
    (hgg : hasGroup G2 env.genericGuildId = vg.isSome)
    (hgid : ∀ p, vg = some p → hasGroup G2 p.1 = true)
    (hgw : hasGroup G2 env.genericWorldId =
      (vg.isNone && (match vw with | some w => w.isLinked | none => false)))
    (hw : ∀ w, vw = some w → hasGroup G2 w.groupId = true) :
    applyRules env vg vw G2 [] = ⟨G2, [], []⟩ := by
  rw [applyRules]
  have hInv : stepInvalid [] (⟨G2, [], []⟩ : SyncState) = ⟨G2, [], []⟩ := rfl
  rw [hInv]
  have hAdd : stepAdditional env vg G2 ⟨G2, [], []⟩ = ⟨G2, [], []⟩ := by
    rw [stepAdditional]
    rcases hvg : vg with _ | p
    · show removeAdditional env G2 ⟨G2, [], []⟩ = ⟨G2, [], []⟩
      rw [removeAdditional]
      exact foldl_additionalStep_id (hadd hvg)
    · rfl
  rw [hAdd]
  exact lateSteps_id hgg hgid hgw hw

/-- C6: `sync_groups` is idempotent — for every account state, flag
assignment and current membership, running it a second time on the
membership produced by the first run (account state unchanged, no
intervening external mutation, every directory call succeeding)
produces empty `added` and `removed` lists.  The hypotheses are
deployment sanity conditions not quantified by the claim: the live
membership lists no group id twice, the generic group ids are reserved
(not doubling as world/guild group ids, distinct from each other and
from the groups the account is entitled to), and the
additional-guild-group names neither collide with names the run can
grant nor occur twice in the membership. -/
theorem sync_groups_idempotent (env : SyncEnv) (acc : Option AccountView)
    (removeAll skipWhitelisted : Bool) (m : List ServerGroup)
    (hm : GroupsOK m)
    (henv : EnvOK env (effectiveGuild acc removeAll) (effectiveWorld acc removeAll))
    (hnames : NamesOK env (effectiveGuild acc removeAll) (effectiveWorld acc removeAll) m) :
    (sync_groups env acc removeAll skipWhitelisted
      (sync_groups env acc removeAll skipWhitelisted m).groups).added = [] ∧
    (sync_groups env acc removeAll skipWhitelisted
      (sync_groups env acc removeAll skipWhitelisted m).groups).removed = [] := by
  obtain ⟨e1, e2, e3, e4, e5, e6, e7⟩ := henv
  obtain ⟨n1, n2⟩ := hnames
  have hvgne : ∀ p, effectiveGuild acc removeAll = some p → p.1 ≠ env.genericWorldId := by
    intro p hp
    rw [hp] at e6
    exact e6
  have hwne : ∀ w, effectiveWorld acc removeAll = some w →
      w.groupId ≠ env.genericWorldId ∧ w.groupId ≠ env.genericGuildId := by
    intro w hw
    rw [hw] at e7
    exact e7
  rcases h1 : collectInvalid env (effectiveGuild acc removeAll) (effectiveWorld acc removeAll)
      skipWhitelisted m with _ | inv
  · rw [sync_groups_eq_abort h1]
    have e : (⟨m, [], [], true⟩ : SyncOutcome).groups = m := rfl
    rw [e, sync_groups_eq_abort h1]
    exact ⟨rfl, rfl⟩
  · rw [sync_groups_eq_run h1]
    have e : (⟨(applyRules env (effectiveGuild acc removeAll) (effectiveWorld acc removeAll)
        m inv).groups,
        (applyRules env (effectiveGuild acc removeAll) (effectiveWorld acc removeAll)
          m inv).added,
        (applyRules env (effectiveGuild acc removeAll) (effectiveWorld acc removeAll)
          m inv).removed, false⟩ : SyncOutcome).groups =
        (applyRules env (effectiveGuild acc removeAll) (effectiveWorld acc removeAll)
          m inv).groups := rfl
    rw [e]
    have hOK : GroupsOK (applyRules env (effectiveGuild acc removeAll)
        (effectiveWorld acc removeAll) m inv).groups := applyRules_GroupsOK hm
    have Fscan : ∀ g ∈ (applyRules env (effectiveGuild acc removeAll)
        (effectiveWorld acc removeAll) m inv).groups,
        skipKnownValid (effectiveGuild acc removeAll) (effectiveWorld acc removeAll) g = true
          ∨ unknownGroup env g = true := by
      intro g hg
      rcases applyRules_mem hm hg with ⟨hgm, hginv⟩ | ⟨_, rfl⟩ | ⟨p, hp, rfl⟩
        | ⟨_, rfl⟩ | ⟨w, hw, rfl⟩
      · rcases collectInvalid_sound h1 g hgm with h' | h' | h'
        · exact Or.inl h'
        · exact Or.inr h'
        · exact absurd h' hginv
      · refine Or.inr ?_
        rw [unknownGroup]
        rw [contains_false e4, contains_false e3]
        rfl
      · exact Or.inl (skipKnownValid_of_guild hp)
      · refine Or.inr ?_
        rw [unknownGroup]
        rw [contains_false e2, contains_false e1]
        rfl
      · exact Or.inl (skipKnownValid_of_world hw)
    have Fgg : hasGroup (applyRules env (effectiveGuild acc removeAll)
        (effectiveWorld acc removeAll) m inv).groups env.genericGuildId =
        (effectiveGuild acc removeAll).isSome :=
      applyRules_genGuild hm e5 (fun w hw => (hwne w hw).2)
    have Fgid : ∀ p, effectiveGuild acc removeAll = some p →
        hasGroup (applyRules env (effectiveGuild acc removeAll)
          (effectiveWorld acc removeAll) m inv).groups p.1 = true :=
      fun p hp => applyRules_guild hm hp (hvgne p hp)
    have Fw : ∀ w, effectiveWorld acc removeAll = some w →
        hasGroup (applyRules env (effectiveGuild acc removeAll)
          (effectiveWorld acc removeAll) m inv).groups w.groupId = true :=
      fun w hw => applyRules_world hw
    have Fgw : hasGroup (applyRules env (effectiveGuild acc removeAll)
        (effectiveWorld acc removeAll) m inv).groups env.genericWorldId =
        ((effectiveGuild acc removeAll).isNone &&
          (match effectiveWorld acc removeAll with
           | some w => w.isLinked
           | none => false)) := by
      rcases hvw2 : effectiveWorld acc removeAll with _ | w
      · rw [applyRules_genWorld_none hm rfl]
        simp
      · rw [applyRules_genWorld_some hm rfl (hwne w hvw2).1]
    have Faddl : effectiveGuild acc removeAll = none →
        ∀ n ∈ env.additionalGuildGroups,
          ((applyRules env (effectiveGuild acc removeAll)
            (effectiveWorld acc removeAll) m inv).groups).find?
              (fun g => g.name == n) = none := by
      intro hvg n hn
      rw [List.find?_eq_none]
      intro g hg hc
      have hgname : g.name ∉ env.additionalGuildGroups :=
        applyRules_no_additional_name hm hvg n2 ((n1 hvg).1)
          (fun w hw => by
            have h' := (n1 hvg).2
            rw [hw] at h'
            exact h') hg
      rw [beq_iff_eq] at hc
      rw [hc] at hgname
      exact hgname hn
    rcases h2 : collectInvalid env (effectiveGuild acc removeAll)
        (effectiveWorld acc removeAll) skipWhitelisted
        (applyRules env (effectiveGuild acc removeAll)
          (effectiveWorld acc removeAll) m inv).groups with _ | l
    · rw [sync_groups_eq_abort h2]
      exact ⟨rfl, rfl⟩
    · have hl : l = [] := by
        rcases collectInvalid_of_all_skip Fscan with hx | hx
        · rw [h2] at hx
          cases hx
        · rw [h2] at hx
          exact Option.some.inj hx
      subst hl
      rw [sync_groups_eq_run h2]
      rw [applyRules_empty_on_stable Faddl Fgg Fgid Fgw Fw]
      exact ⟨rfl, rfl⟩

/-- Witness for C6 at a concrete input: a valid account on linked
world 5, membership {generic-guild, guest}. -/
theorem sync_groups_idempotent_witness :
    (sync_groups ⟨[50], [30], 90, 91, [], []⟩
      (some ⟨true, none, some ⟨50, true, "World 5"⟩⟩) false false
      (sync_groups ⟨[50], [30], 90, 91, [], []⟩
        (some ⟨true, none, some ⟨50, true, "World 5"⟩⟩) false false
        [⟨91, "Generic Guild"⟩, ⟨5, "Guest"⟩]).groups).added = [] ∧
    (sync_groups ⟨[50], [30], 90, 91, [], []⟩
      (some ⟨true, none, some ⟨50, true, "World 5"⟩⟩) false false
      (sync_groups ⟨[50], [30], 90, 91, [], []⟩
        (some ⟨true, none, some ⟨50, true, "World 5"⟩⟩) false false
        [⟨91, "Generic Guild"⟩, ⟨5, "Guest"⟩]).groups).removed = [] :=
  sync_groups_idempotent ⟨[50], [30], 90, 91, [], []⟩
    (some ⟨true, none, some ⟨50, true, "World 5"⟩⟩) false false
    [⟨91, "Generic Guild"⟩, ⟨5, "Guest"⟩]
    (by show ([91, 5] : List Nat).Nodup; decide)
    ⟨by decide, by decide, by decide, by decide, by decide, trivial, by decide, by decide⟩
    ⟨fun _ => ⟨List.not_mem_nil _, List.not_mem_nil _⟩, fun n hn => absurd hn (List.not_mem_nil n)⟩

/-- C1 (amended): for every account with an active guild link, if
`sync_groups` runs to completion (no whitelist abort) with the account
valid and `remove_all` unset, the resulting membership contains no
generic-world group — regardless of the world's `is_linked` flag — but
it *does* contain the account's own world group whenever the account's
world has a `WorldGroup` mapping.  (The original claim also excluded
the home world group; the counterexample shows the code grants it.) -/
theorem sync_groups_guild_no_generic_world (env : SyncEnv) (acc : Option AccountView)
    (sw : Bool) (m : List ServerGroup) (p : Nat × String)
    (hm : GroupsOK m)
    (hvg : effectiveGuild acc false = some p)
    (henv : EnvOK env (effectiveGuild acc false) (effectiveWorld acc false))
    (hdone : (sync_groups env acc false sw m).aborted = false) :
    hasGroup (sync_groups env acc false sw m).groups env.genericWorldId = false ∧
    ∀ w, effectiveWorld acc false = some w →
      hasGroup (sync_groups env acc false sw m).groups w.groupId = true := by
  obtain ⟨e1, e2, e3, e4, e5, e6, e7⟩ := henv
  have hwne : ∀ w, effectiveWorld acc false = some w →
      w.groupId ≠ env.genericWorldId := by
    intro w hw
    rw [hw] at e7
    exact e7.1
  rcases h1 : collectInvalid env (effectiveGuild acc false) (effectiveWorld acc false)
      sw m with _ | inv
  · rw [sync_groups_eq_abort h1] at hdone
    simp at hdone
  · rw [sync_groups_eq_run h1]
    constructor
    · show hasGroup (applyRules env (effectiveGuild acc false)
        (effectiveWorld acc false) m inv).groups env.genericWorldId = false
      rcases hvw2 : effectiveWorld acc false with _ | w
      · exact applyRules_genWorld_none hm rfl
      · rw [applyRules_genWorld_some hm rfl (hwne w hvw2)]
        rw [hvg]
        rfl
    · intro w hw
      show hasGroup (applyRules env (effectiveGuild acc false)
        (effectiveWorld acc false) m inv).groups w.groupId = true
      exact applyRules_world hw

/-- Witness for the amended C1: the counterexample input — guild link
to group 30, world 5 mapped to group 50 — run through the amended
statement: no generic-world group, world group 50 present. -/
theorem sync_groups_guild_no_generic_world_witness :
    hasGroup (sync_groups ⟨[50], [30], 90, 91, [], []⟩
      (some ⟨true, some (30, "MyGuild"), some ⟨50, true, "World 5"⟩⟩) false false
      [⟨5, "Guest"⟩]).groups 90 = false ∧
    hasGroup (sync_groups ⟨[50], [30], 90, 91, [], []⟩
      (some ⟨true, some (30, "MyGuild"), some ⟨50, true, "World 5"⟩⟩) false false
      [⟨5, "Guest"⟩]).groups 50 = true := by
  have h := sync_groups_guild_no_generic_world ⟨[50], [30], 90, 91, [], []⟩
    (some ⟨true, some (30, "MyGuild"), some ⟨50, true, "World 5"⟩⟩) false
    [⟨5, "Guest"⟩] (30, "MyGuild")
    (by show ([5] : List Nat).Nodup; decide)
    rfl
    ⟨by decide, by decide, by decide, by decide, by decide,
      (show (30 : Nat) ≠ 90 by decide),
      (show (50 : Nat) ≠ 90 by decide), (show (50 : Nat) ≠ 91 by decide)⟩
    (by decide)
  exact ⟨h.1, h.2 ⟨50, true, "World 5"⟩ rfl⟩

/-- C5 (amended): with `skip_whitelisted=true`, if the user's current
membership contains a whitelisted group that is not skipped as "known
valid" (i.e. not named Guest and not the account's currently-valid
guild/world group), then `sync_groups` aborts: the membership is left
untouched, the returned change lists are empty, and the abort is
reported.  (The original claim covered *every* whitelisted group; the
counterexample shows a whitelisted group that is also the valid world
group does not trigger the abort.) -/
theorem sync_groups_whitelist_abort (env : SyncEnv) (acc : Option AccountView)
    (removeAll : Bool) (m : List ServerGroup) (g : ServerGroup)
    (hg : g ∈ m)
    (hwl : env.whitelistGroups.contains g.name = true)
    (hskip : skipKnownValid (effectiveGuild acc removeAll)
      (effectiveWorld acc removeAll) g = false) :
    sync_groups env acc removeAll true m = ⟨m, [], [], true⟩ :=
  sync_groups_eq_abort (collectInvalid_abort hg hskip hwl)

/-- Witness for the amended C5: an unmanaged whitelisted group "VIP"
aborts the run with no changes. -/
theorem sync_groups_whitelist_abort_witness :
    sync_groups ⟨[70], [], 90, 91, ["VIP"], []⟩ none false true
      [⟨33, "VIP"⟩, ⟨70, "Old World"⟩] =
      ⟨[⟨33, "VIP"⟩, ⟨70, "Old World"⟩], [], [], true⟩ :=
  sync_groups_whitelist_abort ⟨[70], [], 90, 91, ["VIP"], []⟩ none false
    [⟨33, "VIP"⟩, ⟨70, "Old World"⟩] ⟨33, "VIP"⟩
    (by decide) (by decide) (by decide)

/-! ### Fail-fast lemmas for the cycle phases -/

theorem verifyAccountsAux_abort (outs : Nat → UpdateOutcome) (now : Nat) :
    ∀ (k i : Nat) (accs : List AccountRow),
      (∀ j, j < k → outs (i + j) ≠ .unavailable) →
      outs (i + k) = .unavailable →
      k < accs.length →
      (verifyAccountsAux outs now i accs).2 = true ∧
      (verifyAccountsAux outs now i accs).1.drop k = accs.drop k := by
  intro k
  induction k with
  | zero =>
    intro i accs _ hk hlen
    rcases accs with _ | ⟨a, rest⟩
    · simp at hlen
    · rw [Nat.add_zero] at hk
      rw [verifyAccountsAux, hk]
      exact ⟨rfl, rfl⟩
  | succ k ih =>
    intro i accs hprev hk hlen
    rcases accs with _ | ⟨a, rest⟩
    · simp at hlen
    · have h0 : outs i ≠ .unavailable := by
        have h := hprev 0 (Nat.succ_pos k)
        simpa using h
      have hprev' : ∀ j, j < k → outs (i + 1 + j) ≠ .unavailable := by
        intro j hj
        have h := hprev (j + 1) (by omega)
        rw [show i + (j + 1) = i + 1 + j by omega] at h
        exact h
      have hk' : outs (i + 1 + k) = .unavailable := by
        rw [show i + 1 + k = i + (k + 1) by omega]
        exact hk
      have hlen' : k < rest.length := by
        simp at hlen
        omega
      have hmain := ih (i + 1) rest hprev' hk' hlen'
      rw [verifyAccountsAux]
      cases ho : outs i with
      | ok w n => exact ⟨hmain.1, hmain.2⟩
      | invalidKey => exact ⟨hmain.1, hmain.2⟩
      | unavailable => exact absurd ho h0

theorem verifyTs3Aux_abort (outs : Nat → UpdateOutcome) (verifyAll : Bool) (now : Nat) :
    ∀ (k i : Nat) (users : List Ts3User) (a : AccountRow),
      (∀ j, j < k → outs (i + j) ≠ .unavailable) →
      outs (i + k) = .unavailable →
      users.get? k = some ⟨some a, false⟩ →
      (verifyTs3Aux outs verifyAll now i users).2 = true ∧
      (verifyTs3Aux outs verifyAll now i users).1.drop k =
        (users.drop k).map (fun u => u.account) := by
  intro k
  induction k with
  | zero =>
    intro i users a _ hk hu
    rcases users with _ | ⟨u, rest⟩
    · cases hu
    · have hu' : u = ⟨some a, false⟩ := Option.some.inj hu
      subst hu'
      rw [Nat.add_zero] at hk
      rw [verifyTs3Aux]
      show ((match accountUpdate a now (outs i) with
        | (a', UpdateSignal.unavailable) => (some a' :: rest.map (fun v : Ts3User => v.account), true)
        | (a', UpdateSignal.invalidKey) =>
          let t := verifyTs3Aux outs verifyAll now (i + 1) rest
          (revokeAccount (some a') :: t.1, t.2)
        | (a', UpdateSignal.ok) =>
          let t := verifyTs3Aux outs verifyAll now (i + 1) rest
          (some a' :: t.1, t.2)).2 = true ∧ _)
      rw [hk]
      exact ⟨rfl, rfl⟩
  | succ k ih =>
    intro i users a hprev hk hu
    rcases users with _ | ⟨u, rest⟩
    · cases hu
    · have h0 : outs i ≠ .unavailable := by
        have h := hprev 0 (Nat.succ_pos k)
        simpa using h
      have hprev' : ∀ j, j < k → outs (i + 1 + j) ≠ .unavailable := by
        intro j hj
        have h := hprev (j + 1) (by omega)
        rw [show i + (j + 1) = i + 1 + j by omega] at h
        exact h
      have hk' : outs (i + 1 + k) = .unavailable := by
        rw [show i + 1 + k = i + (k + 1) by omega]
        exact hk
      have hu' : rest.get? k = some ⟨some a, false⟩ := hu
      have hmain := ih (i + 1) rest a hprev' hk' hu'
      rcases u with ⟨uacc, ufresh⟩
      rcases uacc with _ | a0
      · rw [verifyTs3Aux]
        exact ⟨hmain.1, hmain.2⟩
      · have hstep : verifyTs3Aux outs verifyAll now i (⟨some a0, ufresh⟩ :: rest) =
            (if (ufresh && !verifyAll) = true then
              (some a0 :: (verifyTs3Aux outs verifyAll now (i + 1) rest).1,
               (verifyTs3Aux outs verifyAll now (i + 1) rest).2)
            else
              match accountUpdate a0 now (outs i) with
              | (a', UpdateSignal.unavailable) =>
                (some a' :: rest.map (fun v : Ts3User => v.account), true)
              | (a', UpdateSignal.invalidKey) =>
                (revokeAccount (some a') :: (verifyTs3Aux outs verifyAll now (i + 1) rest).1,
                 (verifyTs3Aux outs verifyAll now (i + 1) rest).2)
              | (a', UpdateSignal.ok) =>
                (some a' :: (verifyTs3Aux outs verifyAll now (i + 1) rest).1,
                 (verifyTs3Aux outs verifyAll now (i + 1) rest).2)) := rfl
        rw [hstep]
        by_cases hf : (ufresh && !verifyAll) = true
        · rw [if_pos hf]
          exact ⟨hmain.1, hmain.2⟩
        · rw [if_neg hf]
          cases ho : outs i with
          | ok w n => exact ⟨hmain.1, hmain.2⟩
          | invalidKey => exact ⟨hmain.1, hmain.2⟩
          | unavailable => exact absurd ho h0

/-- C7: during phase 1 (`verify_ts3_accounts`) and phase 2
(`verify_accounts`), a transport failure (`requests.RequestException`)
from the verification API aborts the whole cycle run — the re-raised
exception stops the sweep — and never marks any account invalid: the
failing user/account and every later one keep exactly their previous
account state (`Account.update` raises before mutating on a transport
failure).  `k` is the position of the first unavailable fetch. -/
theorem cycle_unavailable_fail_fast :
    (∀ (outs : Nat → UpdateOutcome) (verifyAll : Bool) (now k : Nat)
        (users : List Ts3User) (a : AccountRow),
      (∀ j, j < k → outs j ≠ .unavailable) →
      outs k = .unavailable →
      users.get? k = some ⟨some a, false⟩ →
      (verifyTs3Aux outs verifyAll now 0 users).2 = true ∧
      (verifyTs3Aux outs verifyAll now 0 users).1.drop k =
        (users.drop k).map (fun u => u.account)) ∧
    (∀ (outs : Nat → UpdateOutcome) (now k : Nat) (accs : List AccountRow),
      (∀ j, j < k → outs j ≠ .unavailable) →
      outs k = .unavailable →
      k < accs.length →
      (verifyAccountsAux outs now 0 accs).2 = true ∧
      (verifyAccountsAux outs now 0 accs).1.drop k = accs.drop k) := by
  constructor
  · intro outs verifyAll now k users a hprev hk hu
    exact verifyTs3Aux_abort outs verifyAll now k 0 users a
      (fun j hj => by simpa using hprev j hj) (by simpa using hk) hu
  · intro outs now k accs hprev hk hlen
    exact verifyAccountsAux_abort outs now k 0 accs
      (fun j hj => by simpa using hprev j hj) (by simpa using hk) hlen

/-- Witness for C7: a single user/account whose verification fetch is
unavailable — the sweeps abort and the account rows stay untouched. -/
theorem cycle_unavailable_fail_fast_witness :
    ((verifyTs3Aux (fun _ => .unavailable) false 7 0
        [⟨some ⟨1, 5, "A", true, 0⟩, false⟩]).2 = true ∧
      (verifyTs3Aux (fun _ => .unavailable) false 7 0
        [⟨some ⟨1, 5, "A", true, 0⟩, false⟩]).1.drop 0 =
        [some ⟨1, 5, "A", true, 0⟩]) ∧
    ((verifyAccountsAux (fun _ => .unavailable) 7 0 [⟨1, 5, "A", true, 0⟩]).2 = true ∧
      (verifyAccountsAux (fun _ => .unavailable) 7 0 [⟨1, 5, "A", true, 0⟩]).1.drop 0 =
        [⟨1, 5, "A", true, 0⟩]) := by
  constructor
  · exact cycle_unavailable_fail_fast.1 (fun _ => .unavailable) false 7 0
      [⟨some ⟨1, 5, "A", true, 0⟩, false⟩] ⟨1, 5, "A", true, 0⟩
      (fun j hj => absurd hj (Nat.not_lt_zero j)) rfl rfl
  · exact cycle_unavailable_fail_fast.2 (fun _ => .unavailable) 7 0
      [⟨1, 5, "A", true, 0⟩]
      (fun j hj => absurd hj (Nat.not_lt_zero j)) rfl (by decide)

/-! ### Row-id preservation of the store operations -/

theorem accountUpdate_id (a : AccountRow) (now : Nat) (o : UpdateOutcome) :
    ((accountUpdate a now o).1).id = a.id := by
  cases o <;> rfl

theorem dbInvalidate_rowIds (db : Db) (accId : Nat) :
    dbRowIds (dbInvalidate db accId) = dbRowIds db := by
  rw [dbRowIds, dbRowIds, dbInvalidate]
  refine congrArg₂ Prod.mk ?_ (congrArg₂ Prod.mk rfl (congrArg₂ Prod.mk ?_ ?_))
  · rw [List.map_map]
    refine List.map_congr_left ?_
    intro a _
    by_cases h : a.id = accId <;> simp [h]
  · rw [List.map_map]
    refine List.map_congr_left ?_
    intro l _
    by_cases h : l.accountId = accId <;> simp [h]
  · rw [List.map_map]
    refine List.map_congr_left ?_
    intro l _
    by_cases h : l.accountId = accId <;> simp [h]

theorem dbUpdate_rowIds (db : Db) (accId now : Nat) (o : UpdateOutcome) :
    dbRowIds (dbUpdate db accId now o) = dbRowIds db := by
  cases o with
  | unavailable => rfl
  | ok w n =>
    have estep : dbUpdate db accId now (.ok w n) = { db with accounts := db.accounts.map (fun a => if a.id = accId then (accountUpdate a now (.ok w n)).1 else a) } := rfl
    rw [estep]
    rw [dbRowIds, dbRowIds]
    refine congrArg₂ Prod.mk ?_ rfl
    rw [List.map_map]
    refine List.map_congr_left ?_
    intro a _
    by_cases h : a.id = accId <;> simp [h, accountUpdate_id]
  | invalidKey =>
    have estep : dbUpdate db accId now .invalidKey = { db with accounts := db.accounts.map (fun a => if a.id = accId then (accountUpdate a now .invalidKey).1 else a) } := rfl
    rw [estep]
    rw [dbRowIds, dbRowIds]
    refine congrArg₂ Prod.mk ?_ rfl
    rw [List.map_map]
    refine List.map_congr_left ?_
    intro a _
    by_cases h : a.id = accId <;> simp [h, accountUpdate_id]

theorem toggle_ag_by_id_ids (l : List LinkAccountGuild) (gid : Nat) :
    (l.map (fun r => if r.id = gid then { r with isActive := true } else r)).map
      (fun r => r.id) = l.map (fun r => r.id) := by
  rw [List.map_map]
  refine List.map_congr_left ?_
  intro r _
  by_cases h : r.id = gid <;> simp [h]

theorem transfer_rowIds_superset (db : Db) (accId tid : Nat) (other : Option Nat)
    (newId : Nat) :
    (dbRowIds db).1 ⊆ (dbRowIds (transfer_registration db accId tid other newId)).1 ∧
    (dbRowIds db).2.1 ⊆ (dbRowIds (transfer_registration db accId tid other newId)).2.1 ∧
    (dbRowIds db).2.2.1 ⊆
      (dbRowIds (transfer_registration db accId tid other newId)).2.2.1 ∧
    (dbRowIds db).2.2.2 ⊆
      (dbRowIds (transfer_registration db accId tid other newId)).2.2.2 := by
  have hinv1 : ∀ (d : Db) (a : Nat), (dbRowIds (dbInvalidate d a)).1 = (dbRowIds d).1 :=
    fun d a => congrArg (fun t => t.1) (dbInvalidate_rowIds d a)
  have hinv2 : ∀ (d : Db) (a : Nat), (dbRowIds (dbInvalidate d a)).2.1 = (dbRowIds d).2.1 :=
    fun d a => congrArg (fun t => t.2.1) (dbInvalidate_rowIds d a)
  have hinv3 : ∀ (d : Db) (a : Nat),
      (dbRowIds (dbInvalidate d a)).2.2.1 = (dbRowIds d).2.2.1 :=
    fun d a => congrArg (fun t => t.2.2.1) (dbInvalidate_rowIds d a)
  have hinv4 : ∀ (d : Db) (a : Nat),
      (dbRowIds (dbInvalidate d a)).2.2.2 = (dbRowIds d).2.2.2 :=
    fun d a => congrArg (fun t => t.2.2.2) (dbInvalidate_rowIds d a)
  rcases other with _ | oid
  · simp only [transfer_registration]
    set IDS := (if db.identities.contains tid then db.identities
      else db.identities ++ [tid]) with hIDS
    have hsubI : db.identities ⊆ IDS := by
      rw [hIDS]
      split
      · exact fun x hx => hx
      · exact List.subset_append_left _ _
    set d1 : Db := { db with identities := IDS } with hd1
    set d2 : Db := dbInvalidate d1 accId with hd2
    set d4 : Db := { d2 with linkAI := d2.linkAI ++ [⟨newId, accId, tid, true⟩] } with hd4
    have E1 : (dbRowIds d4).1 = (dbRowIds db).1 := by
      rw [hd4]
      show (dbRowIds d2).1 = (dbRowIds db).1
      rw [hd2, hinv1 d1 accId, hd1]
      rfl
    have E2 : (dbRowIds d4).2.1 = IDS := by
      rw [hd4]
      show (dbRowIds d2).2.1 = IDS
      rw [hd2, hinv2 d1 accId, hd1]
      rfl
    have E3 : (dbRowIds d4).2.2.1 = (dbRowIds db).2.2.1 ++ [newId] := by
      rw [hd4]
      show (d2.linkAI ++ [(⟨newId, accId, tid, true⟩ : LinkAIRow)]).map (fun l => l.id) =
        (dbRowIds db).2.2.1 ++ [newId]
      rw [List.map_append]
      have e : d2.linkAI.map (fun l => l.id) = (dbRowIds db).2.2.1 := by
        show (dbRowIds d2).2.2.1 = (dbRowIds db).2.2.1
        rw [hd2, hinv3 d1 accId, hd1]
        rfl
      rw [e]
      rfl
    have E4 : (dbRowIds d4).2.2.2 = (dbRowIds db).2.2.2 := by
      rw [hd4]
      show (dbRowIds d2).2.2.2 = (dbRowIds db).2.2.2
      rw [hd2, hinv4 d1 accId, hd1]
      rfl
    split
    · -- an active guild link is reactivated after the transfer
      next gid _ =>
        refine ⟨?_, ?_, ?_, ?_⟩
        · show (dbRowIds db).1 ⊆ (dbRowIds d4).1
          rw [E1]
          exact fun x hx => hx
        · show (dbRowIds db).2.1 ⊆ (dbRowIds d4).2.1
          rw [E2]
          exact hsubI
        · show (dbRowIds db).2.2.1 ⊆ (dbRowIds d4).2.2.1
          rw [E3]
          exact List.subset_append_left _ _
        · show (dbRowIds db).2.2.2 ⊆
            (d4.linkAG.map (fun l => if l.id = gid then { l with isActive := true }
              else l)).map (fun l => l.id)
          rw [toggle_ag_by_id_ids]
          show (dbRowIds db).2.2.2 ⊆ (dbRowIds d4).2.2.2
          rw [E4]
          exact fun x hx => hx
    · refine ⟨?_, ?_, ?_, ?_⟩
      · rw [E1]
        exact fun x hx => hx
      · rw [E2]
        exact hsubI
      · rw [E3]
        exact List.subset_append_left _ _
      · rw [E4]
        exact fun x hx => hx
  · simp only [transfer_registration]
    set IDS := (if db.identities.contains tid then db.identities
      else db.identities ++ [tid]) with hIDS
    have hsubI : db.identities ⊆ IDS := by
      rw [hIDS]
      split
      · exact fun x hx => hx
      · exact List.subset_append_left _ _
    set d1 : Db := { db with identities := IDS } with hd1
    set d2 : Db := dbInvalidate d1 accId with hd2
    set d3 : Db := dbInvalidate d2 oid with hd3
    set d4 : Db := { d3 with linkAI := d3.linkAI ++ [⟨newId, accId, tid, true⟩] } with hd4
    have E1 : (dbRowIds d4).1 = (dbRowIds db).1 := by
      rw [hd4]
      show (dbRowIds d3).1 = (dbRowIds db).1
      rw [hd3, hinv1 d2 oid, hd2, hinv1 d1 accId, hd1]
      rfl
    have E2 : (dbRowIds d4).2.1 = IDS := by
      rw [hd4]
      show (dbRowIds d3).2.1 = IDS
      rw [hd3, hinv2 d2 oid, hd2, hinv2 d1 accId, hd1]
      rfl
    have E3 : (dbRowIds d4).2.2.1 = (dbRowIds db).2.2.1 ++ [newId] := by
      rw [hd4]
      show (d3.linkAI ++ [(⟨newId, accId, tid, true⟩ : LinkAIRow)]).map (fun l => l.id) =
        (dbRowIds db).2.2.1 ++ [newId]
      rw [List.map_append]
      have e : d3.linkAI.map (fun l => l.id) = (dbRowIds db).2.2.1 := by
        show (dbRowIds d3).2.2.1 = (dbRowIds db).2.2.1
        rw [hd3, hinv3 d2 oid, hd2, hinv3 d1 accId, hd1]
        rfl
      rw [e]
      rfl
    have E4 : (dbRowIds d4).2.2.2 = (dbRowIds db).2.2.2 := by
      rw [hd4]
      show (dbRowIds d3).2.2.2 = (dbRowIds db).2.2.2
      rw [hd3, hinv4 d2 oid, hd2, hinv4 d1 accId, hd1]
      rfl
    split
    · next gid _ =>
        refine ⟨?_, ?_, ?_, ?_⟩
        · show (dbRowIds db).1 ⊆ (dbRowIds d4).1
          rw [E1]
          exact fun x hx => hx
        · show (dbRowIds db).2.1 ⊆ (dbRowIds d4).2.1
          rw [E2]
          exact hsubI
        · show (dbRowIds db).2.2.1 ⊆ (dbRowIds d4).2.2.1
          rw [E3]
          exact List.subset_append_left _ _
        · show (dbRowIds db).2.2.2 ⊆
            (d4.linkAG.map (fun l => if l.id = gid then { l with isActive := true }
              else l)).map (fun l => l.id)
          rw [toggle_ag_by_id_ids]
          show (dbRowIds db).2.2.2 ⊆ (dbRowIds d4).2.2.2
          rw [E4]
          exact fun x hx => hx
    · refine ⟨?_, ?_, ?_, ?_⟩
      · rw [E1]
        exact fun x hx => hx
      · rw [E2]
        exact hsubI
      · rw [E3]
        exact List.subset_append_left _ _
      · rw [E4]
        exact fun x hx => hx

theorem verifyAccountsAux_ids (outs : Nat → UpdateOutcome) (now : Nat) :
    ∀ (i : Nat) (accs : List AccountRow),
      (verifyAccountsAux outs now i accs).1.map (fun a => a.id) =
        accs.map (fun a => a.id) := by
  intro i accs
  induction accs generalizing i with
  | nil => rfl
  | cons a rest ih =>
    rw [verifyAccountsAux]
    cases ho : outs i with
    | unavailable => rfl
    | ok w n =>
      show ((accountUpdate a now (.ok w n)).1 ::
          (verifyAccountsAux outs now (i + 1) rest).1).map (fun x => x.id) =
        (a :: rest).map (fun x => x.id)
      rw [List.map_cons, List.map_cons, accountUpdate_id, ih]
    | invalidKey =>
      show ((accountUpdate a now .invalidKey).1 ::
          (verifyAccountsAux outs now (i + 1) rest).1).map (fun x => x.id) =
        (a :: rest).map (fun x => x.id)
      rw [List.map_cons, List.map_cons, accountUpdate_id, ih]

theorem fix_user_guilds_no_dup (table : List LinkAccountGuild)
    (h : duplicateAccounts table = []) : fix_user_guilds table = table := by
  rw [fix_user_guilds, h]
  rfl

/-- C3 (amended): the store operations never delete Account, Identity
or LinkAccountIdentity rows, and verification (`Account.update`),
revocation (`Account.invalidate`), the phase-2 sweep and transfer
never delete LinkAccountGuild rows either — rows are appended or
flag-toggled only, so every table's row-id set after a step is a
superset of the one before.  The single exception forced by the
counterexample is cycle phase 0: `fix_user_guilds` deletes
LinkAccountGuild rows, and it does so only when some account has more
than one active guild link — on a table with no such duplicates it is
the identity. -/
theorem store_history_append_only :
    (∀ (db : Db) (accId : Nat), dbRowIds (dbInvalidate db accId) = dbRowIds db) ∧
    (∀ (db : Db) (accId now : Nat) (o : UpdateOutcome),
      dbRowIds (dbUpdate db accId now o) = dbRowIds db) ∧
    (∀ (db : Db) (accId tid : Nat) (other : Option Nat) (newId : Nat),
      (dbRowIds db).1 ⊆ (dbRowIds (transfer_registration db accId tid other newId)).1 ∧
      (dbRowIds db).2.1 ⊆ (dbRowIds (transfer_registration db accId tid other newId)).2.1 ∧
      (dbRowIds db).2.2.1 ⊆
        (dbRowIds (transfer_registration db accId tid other newId)).2.2.1 ∧
      (dbRowIds db).2.2.2 ⊆
        (dbRowIds (transfer_registration db accId tid other newId)).2.2.2) ∧
    (∀ (outs : Nat → UpdateOutcome) (now i : Nat) (accs : List AccountRow),
      (verifyAccountsAux outs now i accs).1.map (fun a => a.id) =
        accs.map (fun a => a.id)) ∧
    (∀ table : List LinkAccountGuild,
      duplicateAccounts table = [] → fix_user_guilds table = table) :=
  ⟨dbInvalidate_rowIds, dbUpdate_rowIds, transfer_rowIds_superset,
   verifyAccountsAux_ids, fix_user_guilds_no_dup⟩

/-- Witness for the amended C3: phase 0 leaves a duplicate-free table
unchanged, and an invalidation preserves all row ids. -/
theorem store_history_append_only_witness :
    fix_user_guilds [⟨1, 1, 10, true⟩] = [⟨1, 1, 10, true⟩] ∧
    dbRowIds (dbInvalidate ⟨[⟨1, 5, "A", true, 0⟩], [2], [], []⟩ 1) =
      dbRowIds ⟨[⟨1, 5, "A", true, 0⟩], [2], [], []⟩ := by
  constructor
  · exact store_history_append_only.2.2.2.2 [⟨1, 1, 10, true⟩] (by decide)
  · exact store_history_append_only.1 ⟨[⟨1, 5, "A", true, 0⟩], [2], [], []⟩ 1

/-- Witness for C4: three rate limits in a row fail with the
rate-limit outcome after 180 units asleep; a rate limit followed by a
non-retryable NotFound propagates it after one 60-unit sleep. -/
theorem limit_fetch_api_spec_witness :
    limit_fetch_api (fun _ => .rateLimited) 0 = (.rateLimited, 180) ∧
    limit_fetch_api (fun i => if i = 0 then .rateLimited else .notFound) 0 =
      (.notFound, 60) := by
  constructor
  · exact limit_fetch_api_spec.1 (fun _ => .rateLimited) rfl rfl rfl
  · have h := limit_fetch_api_spec.2 (fun i => if i = 0 then .rateLimited else .notFound) 1
      (by omega)
      (fun j hj => by
        have hj0 : j = 0 := by omega
        subst hj0
        rfl)
      (by decide)
    simpa using h

end Ts3Bot